import Mathlib

set_option linter.unusedVariables false

/-
Verification development for the defect-analysis pipeline (Telegram-bot
front-end orchestrating download -> OCR -> relevance selection -> VLM page
cleaning -> defect extraction into a spreadsheet).

Each definition is a shallow embedding of a function or data model from the
Python source (src/models.py, src/services/*.py, src/handlers/documents.py),
with the originating symbol named in its doc comment.  External engines
(OCR, embeddings, the vision model, the LLM) are passed in as oracle
parameters; file and network I/O is modelled by explicit values.
-/

/-! ## Data model (src/models.py) -/

/-- Model of `models.TextElement` (src/models.py): one text fragment on a page.
The pydantic field `type` is the constant literal "text" and carries no
information; it is re-emitted and checked by the JSON codec below. -/
structure TextElement where
  category : String
  content : String
  deriving DecidableEq, Repr

/-- Model of `models.PageData` (src/models.py): the stored fields of one page. -/
structure PageData where
  page_number : Nat
  full_text : String
  elements : List TextElement
  total_elements : Nat
  deriving DecidableEq, Repr

/-- Model of `models.DocumentData` (src/models.py): the stored fields of a document. -/
structure DocumentData where
  filename : String
  total_pages : Nat
  pages : List PageData
  deriving DecidableEq, Repr

/-- Constructor semantics of `PageData.__init__` (src/models.py lines 64-70):
whatever `total_elements` value the caller supplies is overwritten with the
length of the element list, and when `full_text` is not passed it is rebuilt
by joining the element contents with single spaces. -/
def mkPageData (page_number : Nat) (full_text : Option String)
    (elements : List TextElement) (total_elements0 : Nat) : PageData :=
  { page_number := page_number
    full_text := full_text.getD (String.intercalate " " (elements.map (·.content)))
    elements := elements
    total_elements := elements.length }

/-- Constructor semantics of `DocumentData.__init__` (src/models.py lines 81-84):
the supplied `total_pages` value is overwritten with the length of the page list. -/
def mkDocumentData (filename : String) (total_pages0 : Nat)
    (pages : List PageData) : DocumentData :=
  { filename := filename
    total_pages := pages.length
    pages := pages }

/-- Model of `models.DefectAnalysisResult` (src/models.py): one structured defect
record.  The pydantic `Literal` constraints on room/location/work_type and the
`DefectKey` enumeration on `defect` restrict the admissible strings but play no
role in the spreadsheet serialization, so all fields are modelled as strings;
`defect` holds the raw enum key (e.g. "wet_cleaning"). -/
structure DefectAnalysisResult where
  source_text : String
  room : String
  location : String
  defect : String
  work_type : String
  deriving DecidableEq, Repr

/-! ## Defect Extractor spreadsheet serialization
(`DefectAnalyzer.create_excel_report`, src/services/defect_analyzer.py 161-203) -/

/-- Abstract view of the written worksheet: the header row followed by the data
rows, exactly as `pandas.DataFrame(data).to_excel(..., index=False)` emits them. -/
structure ExcelSheet where
  header : List String
  rows : List (List String)
  deriving DecidableEq, Repr

/-- Row emission of `pandas.DataFrame(dict).to_excel`: the frame holds equal-length
columns and writes one row per index, each row listing the column values at that
index in column order. -/
def buildRows (cols : List (List String)) (n : Nat) : List (List String) :=
  (List.range n).map (fun i => cols.map (fun c => c.getD i ""))

/-- Model of `DefectAnalyzer.create_excel_report` (src/services/defect_analyzer.py
lines 184-196): builds the five named columns by mapping each record field —
the defect column maps `r.defect`, the raw stored key — and hands them to the
DataFrame writer. -/
def create_excel_report (analysis_results : List DefectAnalysisResult) : ExcelSheet :=
  let columns : List (String × List String) :=
    [ ("Текст из АПО/экспертизы", analysis_results.map (·.source_text)),
      ("Помещение", analysis_results.map (·.room)),
      ("Локализация", analysis_results.map (·.location)),
      ("Дефект", analysis_results.map (·.defect)),
      ("Наименование работы", analysis_results.map (·.work_type)) ]
  { header := columns.map Prod.fst
    rows := buildRows (columns.map Prod.snd) analysis_results.length }

/-- Claim C1 counterexample: for the concrete two-record input below,
`create_excel_report` produces a two-row sheet whose defect cells are exactly the
raw enum keys "wet_cleaning" and "bath_screen_not_fixed" — the serialization
never applies the full-display-name lookup (`get_defect_full_name` exists on the
model but is not called by `create_excel_report`), contradicting the claim that
the defect cell contains the resolved full display name and "not the raw key
itself". -/
theorem create_excel_report_raw_key_counterexample :
    (create_excel_report
        [⟨"зазоры у труб", "Комната", "Пол", "wet_cleaning", "Отделочные работы"⟩,
         ⟨"экран ванны", "Санузел", "Стена", "bath_screen_not_fixed", "Сантехнические работы"⟩]).rows =
      [["зазоры у труб", "Комната", "Пол", "wet_cleaning", "Отделочные работы"],
       ["экран ванны", "Санузел", "Стена", "bath_screen_not_fixed", "Сантехнические работы"]] ∧
    (((create_excel_report
        [⟨"зазоры у труб", "Комната", "Пол", "wet_cleaning", "Отделочные работы"⟩,
         ⟨"экран ванны", "Санузел", "Стена", "bath_screen_not_fixed", "Сантехнические работы"⟩]).rows.getD 0 []).getD 3 ""
      = "wet_cleaning") := by
  constructor <;> rfl

/-- Claim C1 (amended): for every list of defect records, `create_excel_report`
produces a sheet with the fixed header (source excerpt, room, location, defect,
work type), exactly one row per record in that column order, where the defect
cell contains the record's raw enum key as stored (the full-display-name
resolution is not applied by the serialization). -/
theorem create_excel_report_shape (rs : List DefectAnalysisResult) :
    (create_excel_report rs).header =
      ["Текст из АПО/экспертизы", "Помещение", "Локализация", "Дефект",
       "Наименование работы"] ∧
    (create_excel_report rs).rows =
      rs.map (fun r => [r.source_text, r.room, r.location, r.defect, r.work_type]) ∧
    (create_excel_report rs).rows.length = rs.length := by
  refine ⟨rfl, ?_, ?_⟩
  · apply List.ext_getElem
    · simp [create_excel_report, buildRows]
    · intro i h1 h2
      simp only [create_excel_report, buildRows, List.getElem_map, List.getElem_range,
        List.length_map, List.length_range] at h1 ⊢
      simp [List.getD_eq_getElem?_getD, List.getElem?_map,
        List.getElem?_eq_getElem (by simpa using h1)]
  · simp [create_excel_report, buildRows]

/-! ## OCR assembly (`process_pdf_ocr`, src/services/ocr_service.py 46-98) -/

/-- Python test `element.text and element.text.strip()` (and the negated form
`not page.full_text or not page.full_text.strip()`): a string passes exactly
when it contains at least one non-whitespace character. -/
def pyStrHasContent (s : String) : Bool := s.data.any (fun c => !c.isWhitespace)

/-- Python `str.strip()`: remove leading and trailing whitespace. -/
def pyStripList (l : List Char) : List Char :=
  ((l.dropWhile Char.isWhitespace).reverse.dropWhile Char.isWhitespace).reverse

/-- Python `str.strip()` on strings. -/
def pyStrip (s : String) : String := String.mk (pyStripList s.data)

/-- One fragment returned by the external OCR engine: the reported page number
(`getattr(element.metadata, "page_number", 1)` — absent metadata defaults to 1),
the raw text and the category label. -/
structure OCRFragment where
  page_number : Option Nat
  text : String
  category : String
  deriving DecidableEq, Repr

/-- Effective page number of a fragment (`getattr` default 1). -/
def OCRFragment.page (f : OCRFragment) : Nat := f.page_number.getD 1

/-- Test `max_pages and page_number > max_pages` (src/services/ocr_service.py 53):
a fragment is skipped when a truthy page limit is set (None and 0 are falsy)
and the page number exceeds it. -/
def pageBeyondLimit (max_pages : Option Nat) (p : Nat) : Bool :=
  match max_pages with
  | none => false
  | some m => if m = 0 then false else decide (m < p)

/-- Step `if page_number not in pages_data: pages_data[page_number] = []`
(src/services/ocr_service.py 57-58): the page key is created — with an empty
element list — before the fragment's text is examined. -/
def ensureKey (groups : List (Nat × List TextElement)) (p : Nat) :
    List (Nat × List TextElement) :=
  if groups.any (fun g => g.1 = p) then groups else groups ++ [(p, [])]

/-- Step `pages_data[page_number].append(text_element)` (src/services/ocr_service.py 67). -/
def appendElem (groups : List (Nat × List TextElement)) (p : Nat) (te : TextElement) :
    List (Nat × List TextElement) :=
  groups.map (fun g => if g.1 = p then (g.1, g.2 ++ [te]) else g)

/-- One iteration of the fragment loop of `process_pdf_ocr`
(src/services/ocr_service.py 48-67). -/
def ocrStep (max_pages : Option Nat) (groups : List (Nat × List TextElement))
    (f : OCRFragment) : List (Nat × List TextElement) :=
  if pageBeyondLimit max_pages f.page then groups
  else
    let groups1 := ensureKey groups f.page
    if pyStrHasContent f.text then appendElem groups1 f.page ⟨f.category, pyStrip f.text⟩
    else groups1

/-- The grouping dict `pages_data` built by the fragment loop, as an ordered
association list (Python dicts preserve insertion order; keys are unique). -/
def groupFragments (max_pages : Option Nat) (frags : List OCRFragment) :
    List (Nat × List TextElement) :=
  frags.foldl (ocrStep max_pages) []

/-- Dict lookup `pages_data[page_num]`. -/
def lookupGroup (p : Nat) : List (Nat × List TextElement) → Option (List TextElement)
  | [] => none
  | g :: gs => if g.1 = p then some g.2 else lookupGroup p gs

/-- Model of `process_pdf_ocr` (src/services/ocr_service.py 46-98): group the
engine's fragments by page, then build one `PageData` per key in ascending key
order (`for page_num in sorted(pages_data.keys())`), and wrap them in a
`DocumentData` carrying the original filename. -/
def process_pdf_ocr (original_filename : String) (max_pages : Option Nat)
    (frags : List OCRFragment) : DocumentData :=
  let groups := groupFragments max_pages frags
  let sortedKeys := List.insertionSort (· ≤ ·) (groups.map Prod.fst)
  let pages := sortedKeys.map (fun p =>
    let elems := (lookupGroup p groups).getD []
    mkPageData p (some (String.intercalate " " (elems.map (·.content)))) elems elems.length)
  mkDocumentData original_filename pages.length pages

/-- Fragments of `frags` that survive for page `p`: not beyond the page limit,
reported on page `p`, and carrying non-whitespace text; each becomes a
`TextElement` with the stripped text (src/services/ocr_service.py 61-67). -/
def survivingElems (max_pages : Option Nat) (frags : List OCRFragment) (p : Nat) :
    List TextElement :=
  (frags.filter (fun f =>
      !pageBeyondLimit max_pages f.page && (f.page == p) && pyStrHasContent f.text)).map
    (fun f => ⟨f.category, pyStrip f.text⟩)

/-- Some fragment of `frags` reports page `p` and is within the page limit. -/
def anyFragOnPage (max_pages : Option Nat) (frags : List OCRFragment) (p : Nat) : Bool :=
  frags.any (fun f => !pageBeyondLimit max_pages f.page && (f.page == p))

theorem lookupGroup_append (p : Nat) (g1 g2 : List (Nat × List TextElement)) :
    lookupGroup p (g1 ++ g2) =
      match lookupGroup p g1 with
      | some l => some l
      | none => lookupGroup p g2 := by
  induction g1 with
  | nil => simp [lookupGroup]
  | cons a gs ih => by_cases h : a.1 = p <;> simp [lookupGroup, h, ih]

theorem lookupGroup_eq_none_iff (p : Nat) (g : List (Nat × List TextElement)) :
    lookupGroup p g = none ↔ g.any (fun e => e.1 = p) = false := by
  induction g with
  | nil => simp [lookupGroup]
  | cons a gs ih => by_cases h : a.1 = p <;> simp [lookupGroup, h, ih]

theorem lookupGroup_ensureKey_self (p : Nat) (g : List (Nat × List TextElement)) :
    lookupGroup p (ensureKey g p) = some ((lookupGroup p g).getD []) := by
  unfold ensureKey
  by_cases h : g.any (fun e => e.1 = p)
  · rw [if_pos h]
    cases hg : lookupGroup p g with
    | none => rw [lookupGroup_eq_none_iff] at hg; rw [hg] at h; exact absurd h (by simp)
    | some l => simp
  · rw [if_neg h, lookupGroup_append]
    have hg : lookupGroup p g = none := by
      rw [lookupGroup_eq_none_iff]; exact Bool.not_eq_true _ ▸ (by simpa using h)
    rw [hg]; simp [lookupGroup]

theorem lookupGroup_ensureKey_ne (p q : Nat) (h : q ≠ p)
    (g : List (Nat × List TextElement)) :
    lookupGroup p (ensureKey g q) = lookupGroup p g := by
  unfold ensureKey
  by_cases hq : g.any (fun e => e.1 = q)
  · rw [if_pos hq]
  · rw [if_neg hq, lookupGroup_append]
    cases hg : lookupGroup p g <;> simp [lookupGroup, h]


theorem appendElem_cons (a : Nat × List TextElement) (gs : List (Nat × List TextElement))
    (q : Nat) (te : TextElement) :
    appendElem (a :: gs) q te =
      (if a.1 = q then (a.1, a.2 ++ [te]) else a) :: appendElem gs q te := rfl

theorem lookupGroup_appendElem_self (p : Nat) (te : TextElement)
    (g : List (Nat × List TextElement)) :
    lookupGroup p (appendElem g p te) = (lookupGroup p g).map (fun l => l ++ [te]) := by
  induction g with
  | nil => simp [appendElem, lookupGroup]
  | cons a gs ih =>
    rw [appendElem_cons]
    by_cases h : a.1 = p
    · rw [if_pos h]
      simp [lookupGroup, h]
    · rw [if_neg h]
      simp [lookupGroup, h, ih]

theorem lookupGroup_appendElem_ne (p q : Nat) (h : q ≠ p) (te : TextElement)
    (g : List (Nat × List TextElement)) :
    lookupGroup p (appendElem g q te) = lookupGroup p g := by
  induction g with
  | nil => simp [appendElem, lookupGroup]
  | cons a gs ih =>
    rw [appendElem_cons]
    by_cases ha : a.1 = q
    · have hap : a.1 ≠ p := by rw [ha]; exact h
      rw [if_pos ha]
      simp [lookupGroup, hap, ih]
    · rw [if_neg ha]
      by_cases hp : a.1 = p
      · simp [lookupGroup, hp]
      · simp [lookupGroup, hp, ih]

theorem keys_appendElem (q : Nat) (te : TextElement)
    (g : List (Nat × List TextElement)) :
    (appendElem g q te).map Prod.fst = g.map Prod.fst := by
  induction g with
  | nil => simp [appendElem]
  | cons a gs ih =>
    rw [appendElem_cons]
    by_cases h : a.1 = q
    · rw [if_pos h]; simp only [List.map_cons]; rw [ih]
    · rw [if_neg h]; simp only [List.map_cons]; rw [ih]

theorem mem_keys_ensureKey (p q : Nat) (g : List (Nat × List TextElement)) :
    p ∈ (ensureKey g q).map Prod.fst ↔ p ∈ g.map Prod.fst ∨ p = q := by
  unfold ensureKey
  by_cases h : g.any (fun e => e.1 = q)
  · rw [if_pos h]
    have hq : q ∈ g.map Prod.fst := by
      rcases List.any_eq_true.mp h with ⟨e, he, hqe⟩
      exact List.mem_map.mpr ⟨e, he, by simpa using hqe⟩
    constructor
    · exact Or.inl
    · rintro (hp | rfl)
      · exact hp
      · exact hq
  · rw [if_neg h]
    simp

theorem anyFragOnPage_eq_true_iff (mp : Option Nat) (frags : List OCRFragment) (p : Nat) :
    anyFragOnPage mp frags p = true ↔
      ∃ f ∈ frags, pageBeyondLimit mp f.page = false ∧ f.page = p := by
  simp [anyFragOnPage, List.any_eq_true, Bool.and_eq_true]

theorem survivingElems_cons (mp : Option Nat) (f : OCRFragment) (fs : List OCRFragment)
    (p : Nat) :
    survivingElems mp (f :: fs) p =
      if !pageBeyondLimit mp f.page && (f.page == p) && pyStrHasContent f.text
      then ⟨f.category, pyStrip f.text⟩ :: survivingElems mp fs p
      else survivingElems mp fs p := by
  simp only [survivingElems, List.filter_cons]
  split
  · simp
  · rfl

theorem anyFragOnPage_cons (mp : Option Nat) (f : OCRFragment) (fs : List OCRFragment)
    (p : Nat) :
    anyFragOnPage mp (f :: fs) p =
      ((!pageBeyondLimit mp f.page && (f.page == p)) || anyFragOnPage mp fs p) := by
  simp [anyFragOnPage, List.any_cons]

theorem lookupGroup_foldl (mp : Option Nat) (p : Nat) (frags : List OCRFragment) :
    ∀ g : List (Nat × List TextElement),
      lookupGroup p (frags.foldl (ocrStep mp) g) =
        match lookupGroup p g with
        | some l => some (l ++ survivingElems mp frags p)
        | none =>
          if anyFragOnPage mp frags p then some (survivingElems mp frags p) else none := by
  induction frags with
  | nil =>
    intro g
    cases hg : lookupGroup p g <;> simp [hg, survivingElems, anyFragOnPage]
  | cons f fs ih =>
    intro g
    rw [List.foldl_cons, ih, survivingElems_cons, anyFragOnPage_cons]
    by_cases hb : pageBeyondLimit mp f.page
    · have hstep : ocrStep mp g f = g := by simp [ocrStep, hb]
      rw [hstep]
      cases hg : lookupGroup p g <;> simp [hg, hb]
    · have hb' : pageBeyondLimit mp f.page = false := by simpa using hb
      by_cases hp : f.page = p
      · have hbp : pageBeyondLimit mp p = false := hp ▸ hb'
        by_cases hc : pyStrHasContent f.text
        · have hstep : ocrStep mp g f =
              appendElem (ensureKey g p) p ⟨f.category, pyStrip f.text⟩ := by
            simp [ocrStep, hbp, hc, hp]
          rw [hstep, lookupGroup_appendElem_self, lookupGroup_ensureKey_self]
          cases hg : lookupGroup p g <;> simp [hg, hbp, hp, hc]
        · have hc' : pyStrHasContent f.text = false := by simpa using hc
          have hstep : ocrStep mp g f = ensureKey g p := by
            simp [ocrStep, hbp, hc', hp]
          rw [hstep, lookupGroup_ensureKey_self]
          cases hg : lookupGroup p g <;> simp [hg, hbp, hp, hc']
      · have hne : f.page ≠ p := hp
        have hbeq : (f.page == p) = false := by simp [hne]
        by_cases hc : pyStrHasContent f.text
        · have hstep : ocrStep mp g f =
              appendElem (ensureKey g f.page) f.page ⟨f.category, pyStrip f.text⟩ := by
            simp [ocrStep, hb', hc]
          rw [hstep, lookupGroup_appendElem_ne p f.page hne,
            lookupGroup_ensureKey_ne p f.page hne]
          cases hg : lookupGroup p g <;> simp [hg, hbeq]
        · have hc' : pyStrHasContent f.text = false := by simpa using hc
          have hstep : ocrStep mp g f = ensureKey g f.page := by
            simp [ocrStep, hb', hc']
          rw [hstep, lookupGroup_ensureKey_ne p f.page hne]
          cases hg : lookupGroup p g <;> simp [hg, hbeq]

theorem mem_keys_foldl (mp : Option Nat) (p : Nat) (frags : List OCRFragment) :
    ∀ g : List (Nat × List TextElement),
      p ∈ ((frags.foldl (ocrStep mp) g).map Prod.fst) ↔
        p ∈ g.map Prod.fst ∨
          ∃ f ∈ frags, pageBeyondLimit mp f.page = false ∧ f.page = p := by
  induction frags with
  | nil => intro g; simp
  | cons f fs ih =>
    intro g
    rw [List.foldl_cons, ih]
    by_cases hb : pageBeyondLimit mp f.page
    · have hstep : ocrStep mp g f = g := by simp [ocrStep, hb]
      rw [hstep]
      constructor
      · rintro (h | ⟨f', hf', hcond⟩)
        · exact Or.inl h
        · exact Or.inr ⟨f', List.mem_cons_of_mem f hf', hcond⟩
      · rintro (h | ⟨f', hf', hcond⟩)
        · exact Or.inl h
        · rcases List.mem_cons.mp hf' with rfl | hf''
          · exact absurd hcond.1 (by simp [hb])
          · exact Or.inr ⟨f', hf'', hcond⟩
    · have hb' : pageBeyondLimit mp f.page = false := by simpa using hb
      have hkeys : ∀ gs : List (Nat × List TextElement),
          p ∈ (ocrStep mp gs f).map Prod.fst ↔ p ∈ gs.map Prod.fst ∨ p = f.page := by
        intro gs
        by_cases hc : pyStrHasContent f.text
        · have hstep : ocrStep mp gs f =
              appendElem (ensureKey gs f.page) f.page ⟨f.category, pyStrip f.text⟩ := by
            simp [ocrStep, hb', hc]
          rw [hstep, keys_appendElem, mem_keys_ensureKey]
        · have hc' : pyStrHasContent f.text = false := by simpa using hc
          have hstep : ocrStep mp gs f = ensureKey gs f.page := by
            simp [ocrStep, hb', hc']
          rw [hstep, mem_keys_ensureKey]
      rw [hkeys]
      constructor
      · rintro ((h | h) | ⟨f', hf', hcond⟩)
        · exact Or.inl h
        · exact Or.inr ⟨f, List.mem_cons_self f fs, ⟨hb', h.symm⟩⟩
        · exact Or.inr ⟨f', List.mem_cons_of_mem f hf', hcond⟩
      · rintro (h | ⟨f', hf', hcond⟩)
        · exact Or.inl (Or.inl h)
        · rcases List.mem_cons.mp hf' with rfl | hf''
          · exact Or.inl (Or.inr hcond.2.symm)
          · exact Or.inr ⟨f', hf'', hcond⟩

/-- Claim C3 counterexample: one OCR fragment on page 1 whose text is pure
whitespace.  No fragment has non-whitespace text, yet page 1 is not absent
from the result: `process_pdf_ocr` registers the page key before examining the
fragment's text (src/services/ocr_service.py 57-58 precede the check on line 61),
so the document contains page 1 as an empty page with zero elements —
contradicting the claim that such a page number is entirely absent. -/
theorem process_pdf_ocr_empty_page_counterexample :
    (process_pdf_ocr "doc.pdf" none [⟨some 1, "   ", "Title"⟩]).pages =
      [{ page_number := 1, full_text := "", elements := [], total_elements := 0 }] ∧
    ¬ ∃ f ∈ ([⟨some 1, "   ", "Title"⟩] : List OCRFragment),
        pyStrHasContent f.text = true := by
  constructor
  · rfl
  · decide

/-- Claim C3 (amended): a page number is present in the OCR result exactly when
at least one within-limit fragment reports that page number, regardless of its
text; whitespace-only fragments never become TextElements, so a page all of
whose fragments are whitespace appears as an empty page with zero elements
rather than being absent.  The elements of each present page are exactly the
non-whitespace fragments reported for it, in order, stripped and tagged with
their category, and the page's count and full text are derived from them. -/
theorem process_pdf_ocr_page_presence (fname : String) (mp : Option Nat)
    (frags : List OCRFragment) :
    (∀ p : Nat,
      p ∈ (process_pdf_ocr fname mp frags).pages.map (fun pg => pg.page_number) ↔
        ∃ f ∈ frags, pageBeyondLimit mp f.page = false ∧ f.page = p) ∧
    (∀ pg ∈ (process_pdf_ocr fname mp frags).pages,
      pg.elements = survivingElems mp frags pg.page_number ∧
      pg.total_elements = pg.elements.length ∧
      pg.full_text = String.intercalate " " (pg.elements.map (fun e => e.content))) := by
  have hmap : (process_pdf_ocr fname mp frags).pages.map (fun pg => pg.page_number) =
      List.insertionSort (· ≤ ·) ((groupFragments mp frags).map Prod.fst) := by
    simp [process_pdf_ocr, mkDocumentData, mkPageData, List.map_map, Function.comp_def]
  constructor
  · intro p
    rw [hmap, List.Perm.mem_iff (List.perm_insertionSort _ _)]
    have h := mem_keys_foldl mp p frags []
    simpa [groupFragments] using h
  · intro pg hpg
    simp only [process_pdf_ocr, mkDocumentData, List.mem_map] at hpg
    rcases hpg with ⟨p, hpmem, rfl⟩
    have hpkeys : p ∈ (groupFragments mp frags).map Prod.fst :=
      (List.Perm.mem_iff (List.perm_insertionSort _ _)).mp hpmem
    have hany : anyFragOnPage mp frags p = true := by
      rw [anyFragOnPage_eq_true_iff]
      have h := (mem_keys_foldl mp p frags []).mp hpkeys
      simpa using h
    have hlook : lookupGroup p (groupFragments mp frags) =
        some (survivingElems mp frags p) := by
      have h := lookupGroup_foldl mp p frags []
      simpa [groupFragments, lookupGroup, hany] using h
    refine ⟨?_, ?_, ?_⟩ <;> simp [mkPageData, hlook]

/-! ## JSON artifact (`save_ocr_result`, src/services/ocr_service.py 105-142 and
`load_document_from_json`, src/services/semantic_page_filter.py 224-246) -/

/-- JSON value tree.  The artifact round trip is modelled at the level of the
decoded value: `document.model_dump_json()` produces this tree rendered as text
and `json.load` recovers the same tree, the textual escape layer being the
standard JSON codec.  The document schema uses only nonnegative integers. -/
inductive Json where
  | null : Json
  | bool : Bool → Json
  | num : Nat → Json
  | str : String → Json
  | arr : List Json → Json
  | obj : List (String × Json) → Json

/-- Key lookup in a JSON object (Python dict access by key; first binding wins,
matching dict semantics where keys are unique). -/
def getField (name : String) : List (String × Json) → Option Json
  | [] => none
  | kv :: rest => if kv.1 = name then some kv.2 else getField name rest

/-- Serialization of a `TextElement` by `model_dump_json`: the two data fields
plus the constant literal field `type` = "text" (src/models.py 46-52). -/
def TextElement.toJson (e : TextElement) : Json :=
  .obj [("category", .str e.category), ("content", .str e.content),
        ("type", .str "text")]

/-- Serialization of a `PageData` by `model_dump_json` (src/models.py 55-62). -/
def PageData.toJson (p : PageData) : Json :=
  .obj [("page_number", .num p.page_number), ("full_text", .str p.full_text),
        ("elements", .arr (p.elements.map TextElement.toJson)),
        ("total_elements", .num p.total_elements)]

/-- Serialization of a `DocumentData` by `model_dump_json` (src/models.py 73-79). -/
def DocumentData.toJson (d : DocumentData) : Json :=
  .obj [("filename", .str d.filename), ("total_pages", .num d.total_pages),
        ("pages", .arr (d.pages.map PageData.toJson))]

/-- Pydantic validation of a `TextElement` from decoded JSON: `category` and
`content` must be strings; `type`, when present, must be the literal "text"
(its declared default when absent).  Unknown keys are ignored. -/
def parseTextElement (j : Json) : Option TextElement :=
  match j with
  | .obj fields =>
    match getField "category" fields, getField "content" fields with
    | some (.str c), some (.str t) =>
      match getField "type" fields with
      | none => some ⟨c, t⟩
      | some (.str s) => if s = "text" then some ⟨c, t⟩ else none
      | some _ => none
    | _, _ => none
  | _ => none

/-- Element-wise parsing of a JSON array: every element must validate, in order
(pydantic validates a typed list this way, failing the whole document on the
first invalid entry). -/
def parseAll {α : Type} (f : Json → Option α) : List Json → Option (List α)
  | [] => some []
  | j :: js =>
    match f j with
    | none => none
    | some a =>
      match parseAll f js with
      | none => none
      | some t => some (a :: t)

/-- Validation of a required string field. -/
def jStr : Option Json → Option String
  | some (.str s) => some s
  | _ => none

/-- Validation of a required (nonnegative) integer field. -/
def jNum : Option Json → Option Nat
  | some (.num n) => some n
  | _ => none

/-- Validation of a list field declared with default `[]`: absent means the
default, present must be an array. -/
def jArrOrDefault : Option Json → Option (List Json)
  | none => some []
  | some (.arr l) => some l
  | _ => none

/-- The decoded value must be an object (a Python dict). -/
def jObj : Json → Option (List (String × Json))
  | .obj fs => some fs
  | _ => none

/-- Pydantic validation of a `PageData` from decoded JSON (the `PageData(**dict)`
step of `load_document_from_json`): required `page_number`, `full_text` and
`total_elements`, `elements` defaulting to the empty list, followed by the
constructor which recomputes the element count. -/
def parsePageData (j : Json) : Option PageData :=
  (jObj j).bind fun fields =>
  (jNum (getField "page_number" fields)).bind fun n =>
  (jStr (getField "full_text" fields)).bind fun ft =>
  (jNum (getField "total_elements" fields)).bind fun te =>
  (jArrOrDefault (getField "elements" fields)).bind fun ej =>
  (parseAll parseTextElement ej).bind fun es =>
  some (mkPageData n (some ft) es te)

/-- Model of `load_document_from_json` (src/services/semantic_page_filter.py
224-246): `DocumentData(**json.load(f))` — pydantic validation of the decoded
tree, ending in the constructor which recomputes the page count. -/
def parseDocumentData (j : Json) : Option DocumentData :=
  (jObj j).bind fun fields =>
  (jStr (getField "filename" fields)).bind fun fn =>
  (jNum (getField "total_pages" fields)).bind fun tp =>
  (jArrOrDefault (getField "pages" fields)).bind fun pj =>
  (parseAll parsePageData pj).bind fun ps =>
  some (mkDocumentData fn tp ps)

theorem parseTextElement_toJson (e : TextElement) :
    parseTextElement (TextElement.toJson e) = some e := rfl

theorem parseAll_parseTextElement_toJson (es : List TextElement) :
    parseAll parseTextElement (es.map TextElement.toJson) = some es := by
  induction es with
  | nil => rfl
  | cons e t ih => simp [parseAll, parseTextElement_toJson, ih]

theorem parsePageData_toJson (p : PageData)
    (h : p.total_elements = p.elements.length) :
    parsePageData (PageData.toJson p) = some p := by
  cases p with
  | mk n ft es te =>
    simp only [PageData.mk.injEq] at h
    simp [parsePageData, PageData.toJson, getField, jObj, jNum, jStr, jArrOrDefault,
      parseAll_parseTextElement_toJson, mkPageData, h]

theorem parseAll_parsePageData_toJson (ps : List PageData)
    (h : ∀ pg ∈ ps, pg.total_elements = pg.elements.length) :
    parseAll parsePageData (ps.map PageData.toJson) = some ps := by
  induction ps with
  | nil => rfl
  | cons p t ih =>
    have hp := parsePageData_toJson p (h p (by simp))
    have ht := ih (fun pg hg => h pg (by simp [hg]))
    simp [parseAll, hp, ht]

theorem parseAll_mem {α : Type} (f : Json → Option α) :
    ∀ (l : List Json) (res : List α), parseAll f l = some res →
      ∀ a ∈ res, ∃ j, j ∈ l ∧ f j = some a := by
  intro l
  induction l with
  | nil =>
    intro res h a ha
    simp only [parseAll, Option.some.injEq] at h
    subst h
    simp at ha
  | cons j js ih =>
    intro res h a ha
    simp only [parseAll] at h
    cases hf : f j with
    | none => rw [hf] at h; simp at h
    | some b =>
      rw [hf] at h
      cases hall : parseAll f js with
      | none => rw [hall] at h; simp at h
      | some t =>
        rw [hall] at h
        simp only [Option.some.injEq] at h
        subst h
        rcases List.mem_cons.mp ha with rfl | hat
        · exact ⟨j, List.mem_cons_self _ _, hf⟩
        · rcases ih t hall a hat with ⟨j', hj', hfj'⟩
          exact ⟨j', List.mem_cons_of_mem _ hj', hfj'⟩

theorem parsePageData_counts (j : Json) (pg : PageData)
    (h : parsePageData j = some pg) :
    pg.total_elements = pg.elements.length := by
  simp only [parsePageData, Option.bind_eq_some, Option.some.injEq] at h
  obtain ⟨fs, hfs, n, hn, ft, hft, te, hte, ej, hej, es, hes, rfl⟩ := h
  rfl

theorem parseDocumentData_counts (j : Json) (d : DocumentData)
    (h : parseDocumentData j = some d) :
    d.total_pages = d.pages.length ∧
      ∀ pg ∈ d.pages, pg.total_elements = pg.elements.length := by
  simp only [parseDocumentData, Option.bind_eq_some, Option.some.injEq] at h
  obtain ⟨fs, hfs, fn, hfn, tp, htp, pj, hpj, ps, hps, rfl⟩ := h
  refine ⟨rfl, ?_⟩
  intro pg hpg
  rcases parseAll_mem parsePageData pj ps hps pg hpg with ⟨j', hj', hparse⟩
  exact parsePageData_counts j' pg hparse

/-- Claim C7: serializing a Document to the JSON artifact (`save_ocr_result`
writes `document.model_dump_json()`) and loading it back
(`load_document_from_json` validates `DocumentData(**json.load(f))`) yields the
same Document: equal filename, total_pages, and full per-page content (page
numbers, full text, ordered TextElements with category and content).  The two
count hypotheses hold for every Document the program constructs, because the
constructors enforce them (see the count-invariant theorem). -/
theorem document_json_round_trip (d : DocumentData)
    (ht : d.total_pages = d.pages.length)
    (hp : ∀ pg ∈ d.pages, pg.total_elements = pg.elements.length) :
    parseDocumentData (DocumentData.toJson d) = some d := by
  cases d with
  | mk fn tp ps =>
    simp only at ht
    simp only at hp
    simp [parseDocumentData, DocumentData.toJson, getField, jObj, jNum, jStr,
      jArrOrDefault, parseAll_parsePageData_toJson ps hp, mkDocumentData, ht]

/-- Concrete document used by the closed witnesses: the caller-supplied counts
(0, 9 and 0) are deliberately wrong and are overwritten by the constructors. -/
def sampleDocument : DocumentData :=
  mkDocumentData "отчет.pdf" 0
    [mkPageData 1 (some "Полы. Дефекты покрытия")
        [⟨"Title", "Полы."⟩, ⟨"NarrativeText", "Дефекты покрытия"⟩] 9,
     mkPageData 3 none [⟨"ListItem", "зазоры"⟩] 0]

/-- Claim C7 witness: the round trip evaluated on a concrete two-page document. -/
theorem document_json_round_trip_witness :
    parseDocumentData (DocumentData.toJson sampleDocument) = some sampleDocument :=
  document_json_round_trip sampleDocument (by decide) (by decide)

/-- Claim C8: for every constructed Page the stored `total_elements` equals the
length of its element list, and for every constructed Document the stored
`total_pages` equals the length of its page list, regardless of the count
values supplied to the constructor; and the invariant holds for every Document
produced by OCR assembly (`process_pdf_ocr`) and by JSON reload
(`load_document_from_json`). -/
theorem count_invariants :
    (∀ (n : Nat) (ft : Option String) (es : List TextElement) (c : Nat),
      (mkPageData n ft es c).total_elements = (mkPageData n ft es c).elements.length) ∧
    (∀ (fn : String) (c : Nat) (ps : List PageData),
      (mkDocumentData fn c ps).total_pages = (mkDocumentData fn c ps).pages.length) ∧
    (∀ (fname : String) (mp : Option Nat) (frags : List OCRFragment),
      (process_pdf_ocr fname mp frags).total_pages =
        (process_pdf_ocr fname mp frags).pages.length ∧
      ∀ pg ∈ (process_pdf_ocr fname mp frags).pages,
        pg.total_elements = pg.elements.length) ∧
    (∀ (j : Json) (d : DocumentData), parseDocumentData j = some d →
      d.total_pages = d.pages.length ∧
      ∀ pg ∈ d.pages, pg.total_elements = pg.elements.length) := by
  refine ⟨fun _ _ _ _ => rfl, fun _ _ _ => rfl, ?_, ?_⟩
  · intro fname mp frags
    refine ⟨rfl, ?_⟩
    intro pg hpg
    simp only [process_pdf_ocr, mkDocumentData, List.mem_map] at hpg
    rcases hpg with ⟨p, hp, rfl⟩
    rfl
  · intro j d h
    exact parseDocumentData_counts j d h

/-- Claim C8 witness: the count invariants evaluated on concrete data — a page
constructed with a wrong supplied count, a document constructed with a wrong
supplied count, an OCR run with a whitespace-only and a real fragment, and a
JSON reload of the sample document. -/
theorem count_invariants_witness :
    ((mkPageData 2 none [⟨"Title", "Полы"⟩] 17).total_elements =
      (mkPageData 2 none [⟨"Title", "Полы"⟩] 17).elements.length) ∧
    ((mkDocumentData "doc.pdf" 5 []).total_pages =
      (mkDocumentData "doc.pdf" 5 []).pages.length) ∧
    ((process_pdf_ocr "doc.pdf" none
          [⟨some 2, "  ", "Title"⟩, ⟨some 1, "Полы", "Title"⟩]).total_pages =
        (process_pdf_ocr "doc.pdf" none
          [⟨some 2, "  ", "Title"⟩, ⟨some 1, "Полы", "Title"⟩]).pages.length ∧
      ∀ pg ∈ (process_pdf_ocr "doc.pdf" none
          [⟨some 2, "  ", "Title"⟩, ⟨some 1, "Полы", "Title"⟩]).pages,
        pg.total_elements = pg.elements.length) ∧
    (sampleDocument.total_pages = sampleDocument.pages.length ∧
      ∀ pg ∈ sampleDocument.pages, pg.total_elements = pg.elements.length) :=
  ⟨count_invariants.1 2 none [⟨"Title", "Полы"⟩] 17,
   count_invariants.2.1 "doc.pdf" 5 [],
   count_invariants.2.2.1 "doc.pdf" none
     [⟨some 2, "  ", "Title"⟩, ⟨some 1, "Полы", "Title"⟩],
   count_invariants.2.2.2 (DocumentData.toJson sampleDocument) sampleDocument
     (by decide)⟩

/-- Claim C3 witness: the amended characterization applied to a concrete run —
one fragment on page 2 with padded text; the page's elements are exactly the
stripped surviving fragment. -/
theorem process_pdf_ocr_page_presence_witness :
    (mkPageData 2 (some "Полы") [⟨"Title", "Полы"⟩] 1).elements =
      survivingElems none [⟨some 2, " Полы ", "Title"⟩]
        (mkPageData 2 (some "Полы") [⟨"Title", "Полы"⟩] 1).page_number ∧
    (mkPageData 2 (some "Полы") [⟨"Title", "Полы"⟩] 1).total_elements =
      (mkPageData 2 (some "Полы") [⟨"Title", "Полы"⟩] 1).elements.length ∧
    (mkPageData 2 (some "Полы") [⟨"Title", "Полы"⟩] 1).full_text =
      String.intercalate " "
        (((mkPageData 2 (some "Полы") [⟨"Title", "Полы"⟩] 1).elements).map
          (fun e => e.content)) :=
  (process_pdf_ocr_page_presence "d.pdf" none [⟨some 2, " Полы ", "Title"⟩]).2
    (mkPageData 2 (some "Полы") [⟨"Title", "Полы"⟩] 1) (by decide)

/-! ## Page Cleaner (`VLMPageCleaner.process_pages`, src/services/vlm_page_cleaner.py 70-113) -/

/-- Model of `models.CleanedPageData` (src/models.py 137-142). -/
structure CleanedPageData where
  page_number : Nat
  cleaned_text : String
  deriving DecidableEq, Repr

/-- Model of `models.VLMCleaningResult` (src/models.py 145-151). -/
structure VLMCleaningResult where
  source_pdf : String
  processed_pages : Nat
  cleaned_pages : List CleanedPageData
  deriving DecidableEq, Repr

/-- Python `sorted(set(xs))`: the distinct values in ascending order. -/
def sortedUnique (l : List Nat) : List Nat :=
  List.insertionSort (· ≤ ·) l.dedup

/-- Exceptions escaping `process_pages`: the input-validation `ValueError` for an
empty page set, or the re-raised per-page failure (conversion or VLM call). -/
inductive VLMErr (ε : Type) where
  | valueError : String → VLMErr ε
  | pageFailure : Nat → ε → VLMErr ε
  deriving DecidableEq, Repr

/-- The per-page loop of `process_pages` (src/services/vlm_page_cleaner.py
85-104): pages in order, appending one `CleanedPageData` per success; the first
page whose conversion or VLM call raises aborts the whole loop by re-raising,
discarding the accumulated partial list. -/
def cleanLoop {ε : Type} (clean : Nat → Except ε String) :
    List Nat → List CleanedPageData → Except (VLMErr ε) (List CleanedPageData)
  | [], acc => .ok acc
  | p :: ps, acc =>
    match clean p with
    | .error e => .error (.pageFailure p e)
    | .ok t => cleanLoop clean ps (acc ++ [⟨p, t⟩])

/-- Model of `VLMPageCleaner.process_pages` (src/services/vlm_page_cleaner.py
70-113): an empty page list raises `ValueError` before any page is touched;
otherwise the pages are processed in ascending deduplicated order
(`sorted(set(page_numbers))`) and on success the result counts the cleaned
pages. The external work per page (pdf2image rendering plus the VLM call) is
the oracle `clean`. -/
def process_pages {ε : Type} (clean : Nat → Except ε String) (pdf_path : String)
    (page_numbers : List Nat) : Except (VLMErr ε) VLMCleaningResult :=
  if page_numbers = [] then
    .error (.valueError "Не переданы номера страниц для VLM обработки")
  else
    match cleanLoop clean (sortedUnique page_numbers) [] with
    | .error e => .error e
    | .ok cleaned => .ok ⟨pdf_path, cleaned.length, cleaned⟩

theorem cleanLoop_ok_map {ε : Type} (clean : Nat → Except ε String) :
    ∀ (ps : List Nat) (acc res : List CleanedPageData),
      cleanLoop clean ps acc = .ok res →
      res.map (fun c => c.page_number) = acc.map (fun c => c.page_number) ++ ps := by
  intro ps
  induction ps with
  | nil =>
    intro acc res h
    simp only [cleanLoop, Except.ok.injEq] at h
    subst h
    simp
  | cons p t ih =>
    intro acc res h
    simp only [cleanLoop] at h
    cases hc : clean p with
    | error e => rw [hc] at h; simp at h
    | ok s =>
      rw [hc] at h
      have := ih (acc ++ [⟨p, s⟩]) res h
      simpa using this

theorem cleanLoop_error_of_mem {ε : Type} (clean : Nat → Except ε String) :
    ∀ (ps : List Nat) (acc : List CleanedPageData) (p : Nat),
      p ∈ ps → (∃ e, clean p = .error e) →
      ∃ err, cleanLoop clean ps acc = .error err := by
  intro ps
  induction ps with
  | nil => intro acc p hp; simp at hp
  | cons q t ih =>
    intro acc p hp ⟨e, he⟩
    cases hc : clean q with
    | error e' => exact ⟨.pageFailure q e', by simp [cleanLoop, hc]⟩
    | ok s =>
      rcases List.mem_cons.mp hp with rfl | hpt
      · rw [hc] at he; simp at he
      · rcases ih (acc ++ [⟨q, s⟩]) p hpt ⟨e, he⟩ with ⟨err, herr⟩
        exact ⟨err, by simp [cleanLoop, hc, herr]⟩

theorem mem_sortedUnique (p : Nat) (l : List Nat) : p ∈ sortedUnique l ↔ p ∈ l := by
  rw [sortedUnique, List.Perm.mem_iff (List.perm_insertionSort _ _), List.mem_dedup]

theorem sortedUnique_sorted_lt (l : List Nat) : List.Sorted (· < ·) (sortedUnique l) :=
  List.Sorted.lt_of_le (List.sorted_insertionSort _ _)
    ((List.Perm.nodup_iff (List.perm_insertionSort _ _)).mpr (List.nodup_dedup l))

/-- Claim C10: `process_pages` rejects an empty page-number list with the
input-validation `ValueError` before any page is processed (the outcome does not
depend on the oracle); for every non-empty list — any order, duplicates allowed
— a successful run processes exactly the distinct requested pages in strictly
ascending order and stores `processed_pages` equal to the length of the
cleaned-page sequence; and a failure on any single requested page makes the
whole call fail with no partial result returned. -/
theorem process_pages_spec {ε : Type} (clean : Nat → Except ε String)
    (pdf_path : String) (page_numbers : List Nat) :
    (page_numbers = [] →
      process_pages clean pdf_path page_numbers =
        .error (.valueError "Не переданы номера страниц для VLM обработки")) ∧
    (∀ r, process_pages clean pdf_path page_numbers = .ok r →
      r.cleaned_pages.map (fun c => c.page_number) = sortedUnique page_numbers ∧
      List.Sorted (· < ·) (r.cleaned_pages.map (fun c => c.page_number)) ∧
      (∀ p, p ∈ r.cleaned_pages.map (fun c => c.page_number) ↔ p ∈ page_numbers) ∧
      r.processed_pages = r.cleaned_pages.length) ∧
    ((∃ p ∈ page_numbers, ∃ e, clean p = .error e) →
      ∃ err, process_pages clean pdf_path page_numbers = .error err) := by
  refine ⟨?_, ?_, ?_⟩
  · intro h
    subst h
    rfl
  · intro r h
    by_cases hempty : page_numbers = []
    · subst hempty
      simp [process_pages] at h
    · rw [process_pages, if_neg hempty] at h
      cases hloop : cleanLoop clean (sortedUnique page_numbers) [] with
      | error e => rw [hloop] at h; simp at h
      | ok cleaned =>
        rw [hloop] at h
        simp only [Except.ok.injEq] at h
        subst h
        have hmap := cleanLoop_ok_map clean (sortedUnique page_numbers) [] cleaned hloop
        simp only [List.map_nil, List.nil_append] at hmap
        refine ⟨hmap, ?_, ?_, rfl⟩
        · rw [hmap]; exact sortedUnique_sorted_lt page_numbers
        · intro p; rw [hmap]; exact mem_sortedUnique p page_numbers
  · rintro ⟨p, hp, e, he⟩
    have hempty : page_numbers ≠ [] := by
      intro h; subst h; simp at hp
    rw [process_pages, if_neg hempty]
    have hmem : p ∈ sortedUnique page_numbers := (mem_sortedUnique p page_numbers).mpr hp
    rcases cleanLoop_error_of_mem clean (sortedUnique page_numbers) [] p hmem ⟨e, he⟩ with
      ⟨err, herr⟩
    exact ⟨err, by rw [herr]⟩

/-- Concrete successful result used by the C10 witness. -/
def vlmResultW : VLMCleaningResult :=
  { source_pdf := "f.pdf", processed_pages := 2,
    cleaned_pages := [⟨1, "очищено"⟩, ⟨3, "очищено"⟩] }

/-- Claim C10 witness: the three parts evaluated on concrete inputs — the empty
list with an always-succeeding oracle, the list [3, 1, 3] (unordered, with a
duplicate) with an always-succeeding oracle, and the list [2] with an oracle
that fails on page 2. -/
theorem process_pages_spec_witness :
    (process_pages (fun _ : Nat => (Except.ok "очищено" : Except String String))
        "f.pdf" [] =
      .error (.valueError "Не переданы номера страниц для VLM обработки")) ∧
    (vlmResultW.cleaned_pages.map (fun c => c.page_number) = sortedUnique [3, 1, 3] ∧
      List.Sorted (· < ·) (vlmResultW.cleaned_pages.map (fun c => c.page_number)) ∧
      (∀ p, p ∈ vlmResultW.cleaned_pages.map (fun c => c.page_number) ↔
          p ∈ [3, 1, 3]) ∧
      vlmResultW.processed_pages = vlmResultW.cleaned_pages.length) ∧
    (∃ err, process_pages
        (fun _ : Nat => (Except.error "Connection" : Except String String))
        "f.pdf" [2] = .error err) :=
  ⟨(process_pages_spec (fun _ : Nat => (Except.ok "очищено" : Except String String))
      "f.pdf" []).1 rfl,
   (process_pages_spec (fun _ : Nat => (Except.ok "очищено" : Except String String))
      "f.pdf" [3, 1, 3]).2.1 vlmResultW rfl,
   (process_pages_spec
      (fun _ : Nat => (Except.error "Connection" : Except String String))
      "f.pdf" [2]).2.2 ⟨2, by decide, "Connection", rfl⟩⟩

/-! ## Relevance Selector (`SemanticPageFilter`, src/services/semantic_page_filter.py)
and its pipeline-level consumption (src/services/pipeline_runner.py 231-250) -/

/-- Model of `semantic_page_filter.PageAnalysisResult` (src/services/semantic_page_filter.py
18-23).  `similarity_score` is optional because `filter_relevant_pages` guards
with `is not None`; scores are modelled as rationals. -/
structure PageAnalysisResult where
  page_number : Nat
  route_name : String
  similarity_score : Option ℚ
  deriving DecidableEq, Repr

/-- Config constant `SEMANTIC_TOP_PAGES_LIMIT` (src/config.py): 10. -/
def SEMANTIC_TOP_PAGES_LIMIT : Nat := 10

/-- Python `limit = top_limit or SEMANTIC_TOP_PAGES_LIMIT`
(src/services/semantic_page_filter.py 167): None and 0 are falsy, so both fall
back to the configured default. -/
def effectiveLimit (top_limit : Option Nat) : Nat :=
  match top_limit with
  | none => SEMANTIC_TOP_PAGES_LIMIT
  | some n => if n = 0 then SEMANTIC_TOP_PAGES_LIMIT else n

/-- Threshold test of `filter_relevant_pages` (src/services/semantic_page_filter.py
170-173): the score must be defined (`is not None`) and at least the threshold. -/
def passesThreshold (threshold : ℚ) (r : PageAnalysisResult) : Bool :=
  match r.similarity_score with
  | none => false
  | some s => decide (threshold ≤ s)

/-- Sort key of `relevant_pages.sort(key=lambda x: x.similarity_score, reverse=True)`;
on the filtered list every score is defined, so the default is never read. -/
def scoreKey (r : PageAnalysisResult) : ℚ := r.similarity_score.getD 0

/-- Descending-score order used by the reverse sort. -/
def scoreGE (a b : PageAnalysisResult) : Prop := scoreKey b ≤ scoreKey a

instance : DecidableRel scoreGE := fun a b =>
  inferInstanceAs (Decidable (scoreKey b ≤ scoreKey a))

instance : IsTotal PageAnalysisResult scoreGE :=
  ⟨fun a b => le_total (scoreKey b) (scoreKey a)⟩

instance : IsTrans PageAnalysisResult scoreGE :=
  ⟨fun a b c hab hbc => le_trans hbc hab⟩

/-- The scored results surviving `filter_relevant_pages`
(src/services/semantic_page_filter.py 155-187): threshold filter, then
descending-score sort, then the top-limit cut. -/
def filterRelevantResults (threshold : ℚ) (top_limit : Option Nat)
    (analysis_results : List PageAnalysisResult) : List PageAnalysisResult :=
  (List.insertionSort scoreGE
      (analysis_results.filter (passesThreshold threshold))).take
    (effectiveLimit top_limit)

/-- Model of `SemanticPageFilter.filter_relevant_pages`
(src/services/semantic_page_filter.py 155-187): the page numbers of the
surviving results, in descending-score order. -/
def filter_relevant_pages (threshold : ℚ) (top_limit : Option Nat)
    (analysis_results : List PageAnalysisResult) : List Nat :=
  (filterRelevantResults threshold top_limit analysis_results).map
    (fun r => r.page_number)

/-- Model of `SemanticPageFilter.analyze_document_pages`
(src/services/semantic_page_filter.py 81-149): one result per non-empty page in
document order; pages with whitespace-only full text are skipped entirely.  The
router call and its shape-dependent unpacking (list result, attribute result or
fallback, each applying `or 0.0`) are the oracle, which therefore always yields
a route name and a defined score. -/
def analyzeDocumentPages (doc : DocumentData) (oracle : PageData → String × ℚ) :
    List PageAnalysisResult :=
  doc.pages.filterMap (fun p =>
    if pyStrHasContent p.full_text then
      some ⟨p.page_number, (oracle p).1, some (oracle p).2⟩
    else none)

theorem analyzeDocumentPages_map_sublist (oracle : PageData → String × ℚ) :
    ∀ pages : List PageData,
      List.Sublist
        ((pages.filterMap (fun p =>
          if pyStrHasContent p.full_text then
            some (⟨p.page_number, (oracle p).1, some (oracle p).2⟩ : PageAnalysisResult)
          else none)).map (fun r => r.page_number))
        (pages.map (fun p => p.page_number)) := by
  intro pages
  induction pages with
  | nil => simp
  | cons p t ih =>
    rw [List.filterMap_cons]
    by_cases h : pyStrHasContent p.full_text
    · simp only [h, if_pos]
      exact List.Sublist.cons₂ _ ih
    · simp only [h, Bool.false_eq_true, if_neg, not_false_iff]
      exact List.Sublist.cons _ ih

theorem mem_analyzeDocumentPages_page (doc : DocumentData)
    (oracle : PageData → String × ℚ) (r : PageAnalysisResult)
    (h : r ∈ analyzeDocumentPages doc oracle) :
    r.page_number ∈ doc.pages.map (fun p => p.page_number) := by
  rcases List.mem_filterMap.mp h with ⟨p, hp, hsome⟩
  by_cases hc : pyStrHasContent p.full_text
  · rw [if_pos hc] at hsome
    cases hsome
    exact List.mem_map.mpr ⟨p, hp, rfl⟩
  · rw [if_neg hc] at hsome
    cases hsome

/-- Claim C5: for every Document and every per-page analysis-result list derived
from it (one scored result per non-empty page, as `analyze_document_pages`
builds it), the Relevance Selector's output contains only page numbers that
exist in the source Document, contains no duplicates, and has length at most
the effective top-N limit; the internal cutoff list is ordered by descending
similarity score, and the pipeline-level selection `sorted(set(...))`
(`run_semantic_analysis`, src/services/pipeline_runner.py 245) consumed by later
stages is sorted ascending by page number with exactly the selected members.
The hypothesis — page numbers unique within a Document — is the documented
Document invariant. -/
theorem filter_relevant_pages_spec (doc : DocumentData)
    (oracle : PageData → String × ℚ) (threshold : ℚ) (top_limit : Option Nat)
    (hnodup : (doc.pages.map (fun p => p.page_number)).Nodup) :
    (∀ p ∈ filter_relevant_pages threshold top_limit (analyzeDocumentPages doc oracle),
        p ∈ doc.pages.map (fun pg => pg.page_number)) ∧
    (filter_relevant_pages threshold top_limit (analyzeDocumentPages doc oracle)).Nodup ∧
    (filter_relevant_pages threshold top_limit (analyzeDocumentPages doc oracle)).length ≤
      effectiveLimit top_limit ∧
    List.Sorted scoreGE
      (filterRelevantResults threshold top_limit (analyzeDocumentPages doc oracle)) ∧
    List.Sorted (· ≤ ·)
      (sortedUnique
        (filter_relevant_pages threshold top_limit (analyzeDocumentPages doc oracle))) ∧
    (∀ p,
      p ∈ sortedUnique
          (filter_relevant_pages threshold top_limit (analyzeDocumentPages doc oracle)) ↔
        p ∈ filter_relevant_pages threshold top_limit (analyzeDocumentPages doc oracle)) := by
  have hresmem : ∀ r ∈ filterRelevantResults threshold top_limit
      (analyzeDocumentPages doc oracle), r ∈ analyzeDocumentPages doc oracle := by
    intro r hr
    have h1 : r ∈ List.insertionSort scoreGE
        ((analyzeDocumentPages doc oracle).filter (passesThreshold threshold)) :=
      List.Sublist.subset (List.take_sublist _ _) hr
    have h2 : r ∈ (analyzeDocumentPages doc oracle).filter (passesThreshold threshold) :=
      (List.Perm.mem_iff (List.perm_insertionSort _ _)).mp h1
    exact List.mem_of_mem_filter h2
  refine ⟨?_, ?_, ?_, ?_, ?_, ?_⟩
  · intro p hp
    rcases List.mem_map.mp hp with ⟨r, hr, rfl⟩
    exact mem_analyzeDocumentPages_page doc oracle r (hresmem r hr)
  · have hmn : ((analyzeDocumentPages doc oracle).map (fun r => r.page_number)).Nodup :=
      List.Nodup.sublist (analyzeDocumentPages_map_sublist oracle doc.pages) hnodup
    have hfil : (((analyzeDocumentPages doc oracle).filter
        (passesThreshold threshold)).map (fun r => r.page_number)).Nodup :=
      List.Nodup.sublist (List.Sublist.map _ (List.filter_sublist _)) hmn
    have hsort : ((List.insertionSort scoreGE
        ((analyzeDocumentPages doc oracle).filter
          (passesThreshold threshold))).map (fun r => r.page_number)).Nodup :=
      (List.Perm.nodup_iff (List.Perm.map _ (List.perm_insertionSort _ _))).mpr hfil
    exact List.Nodup.sublist (List.Sublist.map _ (List.take_sublist _ _)) hsort
  · rw [filter_relevant_pages, List.length_map]
    exact List.length_take_le _ _
  · exact List.Pairwise.sublist (List.take_sublist _ _)
      (List.sorted_insertionSort scoreGE _)
  · exact List.sorted_insertionSort _ _
  · intro p
    exact mem_sortedUnique p _

/-- Concrete three-page document for the C5 witness (the shape of Scenario A of
the spec): pages 1 and 3 score above the threshold, page 2 below. -/
def docW : DocumentData :=
  mkDocumentData "d.pdf" 0
    [mkPageData 1 (some "трещины и зазоры") [] 0,
     mkPageData 2 (some "оглавление") [] 0,
     mkPageData 3 (some "отслоение обоев") [] 0]

/-- Concrete scoring oracle for the C5 witness. -/
def oracleW (p : PageData) : String × ℚ :=
  ("problems",
    if p.page_number = 1 then 7 else if p.page_number = 2 then -1 else 6)

/-- Claim C5 witness: the selector's guarantees evaluated on the concrete
three-page document, with the document invariant discharged by computation;
the selection itself computes to pages [1, 3]. -/
theorem filter_relevant_pages_spec_witness :
    (∀ p ∈ filter_relevant_pages (0 : ℚ) (some 10) (analyzeDocumentPages docW oracleW),
        p ∈ docW.pages.map (fun pg => pg.page_number)) ∧
    (filter_relevant_pages (0 : ℚ) (some 10) (analyzeDocumentPages docW oracleW)).Nodup ∧
    (filter_relevant_pages (0 : ℚ) (some 10)
        (analyzeDocumentPages docW oracleW)).length ≤ effectiveLimit (some 10) ∧
    sortedUnique (filter_relevant_pages (0 : ℚ) (some 10)
        (analyzeDocumentPages docW oracleW)) = [1, 3] :=
  ⟨(filter_relevant_pages_spec docW oracleW (0 : ℚ) (some 10) (by decide)).1,
   (filter_relevant_pages_spec docW oracleW (0 : ℚ) (some 10) (by decide)).2.1,
   (filter_relevant_pages_spec docW oracleW (0 : ℚ) (some 10) (by decide)).2.2.1,
   by decide⟩

/-! ## Orchestrator halt on an empty relevance set
(`handle_full_defect_analysis`, src/handlers/documents.py 300-331) -/

/-- Outcome of the full-analysis handler after the relevance stage: the named
"no relevant pages" warning message (a normal return), successful completion
with the Excel path, or a surfaced stage failure caught by the handler's
catch-all. -/
inductive HandlerOutcome (ε : Type) where
  | noRelevantPages : HandlerOutcome ε
  | completed : String → HandlerOutcome ε
  | failed : ε → HandlerOutcome ε

/-- What the handler did after the relevance stage: whether the VLM stage and
the analysis/Excel stage were attempted, and the final outcome. -/
structure HandlerTrace (ε : Type) where
  vlmAttempted : Bool
  analysisAttempted : Bool
  outcome : HandlerOutcome ε

/-- Model of stages 2-5 of `handle_full_defect_analysis`
(src/handlers/documents.py 310-381) from the point where the Relevance Selector
has returned `relevant_pages`: the handler deduplicates and sorts the selection
(line 311); an empty selection edits the progress message with the named
warning and returns normally — no exception raised, no VLM stage, no Excel
stage (lines 313-323); otherwise VLM cleaning and then LLM analysis with Excel
generation run in order, a failure in either surfacing to the handler's
catch-all (line 383) as a failed outcome. -/
def afterSemanticStage {ε : Type} (relevant_pages : List Nat)
    (vlmRun : List Nat → Except ε VLMCleaningResult)
    (analyzeRun : VLMCleaningResult → Except ε String) : HandlerTrace ε :=
  let sorted_relevant_pages := sortedUnique relevant_pages
  if sorted_relevant_pages = [] then
    { vlmAttempted := false, analysisAttempted := false, outcome := .noRelevantPages }
  else
    match vlmRun sorted_relevant_pages with
    | .error e =>
      { vlmAttempted := true, analysisAttempted := false, outcome := .failed e }
    | .ok vlm_result =>
      match analyzeRun vlm_result with
      | .error e =>
        { vlmAttempted := true, analysisAttempted := true, outcome := .failed e }
      | .ok excel_path =>
        { vlmAttempted := true, analysisAttempted := true,
          outcome := .completed excel_path }

/-- Claim C6: whenever the Relevance Selector returns an empty qualifying-page
set, the handler halts with the named "no relevant pages" stop condition as a
normal return: the outcome is never a failure, and neither VLM cleaning nor
defect extraction is attempted — for every behaviour of the later-stage
oracles.  (`run_vlm_cleaning` would raise `PipelineError` on an empty
selection, src/services/pipeline_runner.py 254-255, but the handler never
reaches it.) -/
theorem empty_relevance_halts {ε : Type}
    (vlmRun : List Nat → Except ε VLMCleaningResult)
    (analyzeRun : VLMCleaningResult → Except ε String) :
    afterSemanticStage [] vlmRun analyzeRun =
      { vlmAttempted := false, analysisAttempted := false,
        outcome := .noRelevantPages } ∧
    (∀ e : ε, (afterSemanticStage [] vlmRun analyzeRun).outcome ≠ .failed e) ∧
    (afterSemanticStage [] vlmRun analyzeRun).vlmAttempted = false ∧
    (afterSemanticStage [] vlmRun analyzeRun).analysisAttempted = false := by
  refine ⟨rfl, ?_, rfl, rfl⟩
  intro e h
  exact HandlerOutcome.noConfusion h

/-- Claim C6 witness: the halt evaluated with concrete later-stage oracles that
would fail if they were ever invoked. -/
theorem empty_relevance_halts_witness :
    afterSemanticStage []
        (fun _ => (Except.error "vlm failure" : Except String VLMCleaningResult))
        (fun _ => (Except.error "llm failure" : Except String String)) =
      { vlmAttempted := false, analysisAttempted := false,
        outcome := .noRelevantPages } ∧
    (∀ e : String,
      (afterSemanticStage []
          (fun _ => (Except.error "vlm failure" : Except String VLMCleaningResult))
          (fun _ => (Except.error "llm failure" : Except String String))).outcome ≠
        .failed e) ∧
    (afterSemanticStage []
        (fun _ => (Except.error "vlm failure" : Except String VLMCleaningResult))
        (fun _ => (Except.error "llm failure" : Except String String))).vlmAttempted =
      false ∧
    (afterSemanticStage []
        (fun _ => (Except.error "vlm failure" : Except String VLMCleaningResult))
        (fun _ => (Except.error "llm failure" : Except String String))).analysisAttempted =
      false :=
  empty_relevance_halts
    (fun _ => (Except.error "vlm failure" : Except String VLMCleaningResult))
    (fun _ => (Except.error "llm failure" : Except String String))

/-! ## Pipeline stage preconditions
(`DefectAnalysisPipeline`, src/services/pipeline_runner.py 139-302) -/

/-- Python exception kinds surfaced by the stage-precondition paths. -/
inductive PyException where
  | pipelineError : String → PyException
  | attributeError : String → PyException
  deriving DecidableEq, Repr

/-- State fields of `DefectAnalysisPipeline` that the stage preconditions read
(src/services/pipeline_runner.py 147-154).  `__init__` sets every one of them,
including `_vlm_result`, to None.  `semantic_relevant_pages` stands for
`semantic_info.relevant_pages` when `semantic_info` is set. -/
structure PipelineState where
  pdf_path : Option String
  ocr_done : Bool
  semantic_relevant_pages : Option (List Nat)
  vlm_result : Option VLMCleaningResult
  deriving Repr

/-- The freshly constructed pipeline object: every stage field unset. -/
def initialPipelineState : PipelineState :=
  { pdf_path := none, ocr_done := false, semantic_relevant_pages := none,
    vlm_result := none }

/-- The test `hasattr(self, "_vlm_result")` (src/services/pipeline_runner.py 276):
because `__init__` assigns `self._vlm_result = None` (line 154), the attribute
exists on every pipeline object and the test is true in every state. -/
def hasattrVlmResult (st : PipelineState) : Bool := true

/-- Precondition guard of `run_ocr` (src/services/pipeline_runner.py 210-211):
`if not self.pdf_path` — None is the only falsy value a Path field takes. -/
def runOcrGuard (st : PipelineState) : Except PyException Unit :=
  if st.pdf_path.isNone then .error (.pipelineError "PDF файл не найден для OCR.")
  else .ok ()

/-- Precondition guard of `run_semantic_analysis` (src/services/pipeline_runner.py
233-234): `if not self.ocr_info`. -/
def runSemanticGuard (st : PipelineState) : Except PyException Unit :=
  if st.ocr_done = false then
    .error (.pipelineError "Нет данных OCR для семантического анализа.")
  else .ok ()

/-- Precondition guards of `run_vlm_cleaning` (src/services/pipeline_runner.py
254-257): `if not self.semantic_info or not self.semantic_info.relevant_pages`
(an empty selection is also rejected), then `if not self.pdf_path`. -/
def runVlmGuard (st : PipelineState) : Except PyException Unit :=
  match st.semantic_relevant_pages with
  | none => .error (.pipelineError "Нет релевантных страниц для Vision-обработки.")
  | some pages =>
    if pages = [] then
      .error (.pipelineError "Нет релевантных страниц для Vision-обработки.")
    else if st.pdf_path.isNone then
      .error (.pipelineError "PDF файл отсутствует для Vision-обработки.")
    else .ok ()

/-- Precondition path of `run_analysis_and_report` (src/services/pipeline_runner.py
276-281): the `hasattr` guard can never fire, because `__init__` always creates
`_vlm_result`; the method then reads `vlm_result.cleaned_pages` — an
`AttributeError` when `_vlm_result` is still None — and only behind that sits
the `PipelineError` for an empty cleaned-page list. -/
def runAnalysisGuard (st : PipelineState) : Except PyException Unit :=
  if hasattrVlmResult st = false then
    .error (.pipelineError "Нет данных VLM для финального анализа.")
  else
    match st.vlm_result with
    | none =>
      .error (.attributeError "NoneType object has no attribute cleaned_pages")
    | some v =>
      if v.cleaned_pages = [] then
        .error (.pipelineError "VLM не вернул очищенные страницы.")
      else .ok ()

/-- Claim C2 (code bug): on a fresh pipeline, `run_ocr`, `run_semantic_analysis`
and `run_vlm_cleaning` each fail fast with a `PipelineError` naming the missing
precondition, as the claim states — in particular `run_vlm_cleaning` before
`run_semantic_analysis`.  But `run_analysis_and_report` called before
`run_vlm_cleaning` raises `AttributeError`, not `PipelineError`: the `hasattr`
guard written for exactly this precondition is dead code because `__init__`
pre-creates `_vlm_result = None`, so the subsequent attribute access on None
raises instead, in every state in which the VLM stage has never completed. -/
theorem stage_guard_behavior :
    runOcrGuard initialPipelineState =
      .error (.pipelineError "PDF файл не найден для OCR.") ∧
    runSemanticGuard initialPipelineState =
      .error (.pipelineError "Нет данных OCR для семантического анализа.") ∧
    runVlmGuard initialPipelineState =
      .error (.pipelineError "Нет релевантных страниц для Vision-обработки.") ∧
    runAnalysisGuard initialPipelineState =
      .error (.attributeError "NoneType object has no attribute cleaned_pages") ∧
    (∀ st : PipelineState, st.vlm_result = none →
      runAnalysisGuard st =
        .error (.attributeError "NoneType object has no attribute cleaned_pages") ∧
      ∀ msg, runAnalysisGuard st ≠ .error (.pipelineError msg)) := by
  refine ⟨rfl, rfl, rfl, rfl, ?_⟩
  intro st hst
  constructor
  · rw [runAnalysisGuard]
    simp [hasattrVlmResult, hst]
  · intro msg h
    rw [runAnalysisGuard] at h
    simp [hasattrVlmResult, hst] at h

/-! ## Document Fetcher filename derivation
(`safe_filename`, src/services/pipeline_runner.py 119-125) -/

/-- Python truthiness of a string (`if filename`): false exactly for the empty
string. -/
def pyStrTruthy (s : String) : Bool := s ≠ ""

/-- Characters kept by the sanitizer: `ch.isalnum() or ch in {"_", "-", "."}`.
Python's `isalnum` is Unicode-aware; the ASCII fragment modelled here covers
every character these claims exercise. -/
def keepChar (c : Char) : Bool := c.isAlphanum || c = '_' || c = '-' || c = '.'

/-- Test `name.lower().endswith(".pdf")`: the last four characters lowercase to
".pdf" exactly when they are '.', then p or P, then d or D, then f or F (ASCII
lowering maps no other character onto these four). -/
def lowerEndsWithPdf (l : List Char) : Bool :=
  match l.reverse with
  | c4 :: c3 :: c2 :: c1 :: _ =>
    (c1 = '.') && (c2 = 'p' || c2 = 'P') && (c3 = 'd' || c3 = 'D') &&
      (c4 = 'f' || c4 = 'F')
  | _ => false

/-- Line 121 of `safe_filename`: `name = filename.strip() if filename else default`. -/
def sfBase (filename default : String) : List Char :=
  if pyStrTruthy filename then pyStripList filename.data else default.data

/-- Lines 122-123 of `safe_filename`: append ".pdf" unless the lowercased name
already ends with it. -/
def sfNamed (filename default : String) : List Char :=
  if lowerEndsWithPdf (sfBase filename default) then sfBase filename default
  else sfBase filename default ++ ".pdf".data

/-- Model of `safe_filename` (src/services/pipeline_runner.py 119-125): keep only
alphanumerics and `_-.`; fall back to `f"{default}.pdf"` when the sanitized
name is empty (`sanitized or ...`). -/
def safe_filename (filename default : String) : String :=
  if (sfNamed filename default).filter keepChar = [] then
    String.mk (default.data ++ ".pdf".data)
  else String.mk ((sfNamed filename default).filter keepChar)

theorem lowerEndsWithPdf_decomp (l : List Char) (h : lowerEndsWithPdf l = true) :
    ∃ pre c1 c2 c3 c4, l = pre ++ [c1, c2, c3, c4] ∧
      c1 = '.' ∧ (c2 = 'p' ∨ c2 = 'P') ∧ (c3 = 'd' ∨ c3 = 'D') ∧
      (c4 = 'f' ∨ c4 = 'F') := by
  unfold lowerEndsWithPdf at h
  rcases hr : l.reverse with _ | ⟨c4, _ | ⟨c3, _ | ⟨c2, _ | ⟨c1, rest⟩⟩⟩⟩ <;>
    rw [hr] at h <;> simp only [Bool.and_eq_true, Bool.or_eq_true, decide_eq_true_eq] at h
  · exact absurd h (by simp)
  · exact absurd h (by simp)
  · exact absurd h (by simp)
  · exact absurd h (by simp)
  · refine ⟨rest.reverse, c1, c2, c3, c4, ?_, h.1.1.1, h.1.1.2, h.1.2, h.2⟩
    have hl : l = l.reverse.reverse := (List.reverse_reverse l).symm
    rw [hl, hr]
    simp
theorem filter_keep_of_pdf (l : List Char) (h : lowerEndsWithPdf l = true) :
    lowerEndsWithPdf (l.filter keepChar) = true ∧ l.filter keepChar ≠ [] := by
  rcases lowerEndsWithPdf_decomp l h with ⟨pre, c1, c2, c3, c4, rfl, h1, h2, h3, h4⟩
  subst h1
  have hfq : ∀ ll : List Char, (ll ++ ['.', c2, c3, c4]).filter keepChar =
      ll.filter keepChar ++ ['.', c2, c3, c4] := by
    intro ll
    rw [List.filter_append]
    rcases h2 with rfl | rfl <;> rcases h3 with rfl | rfl <;>
      rcases h4 with rfl | rfl <;> rfl
  rw [hfq]
  constructor
  · rcases h2 with rfl | rfl <;> rcases h3 with rfl | rfl <;>
      rcases h4 with rfl | rfl <;>
      simp [lowerEndsWithPdf, List.reverse_append]
  · simp

/-- Claim C9 counterexample: `safe_filename "!!!" "doc"` — an input that
sanitizes to nothing — returns ".pdf" (the appended suffix survives the
sanitizer), not the default-based name "doc.pdf" the claim promises; and
`safe_filename "a.PDF" "doc"` returns "a.PDF", which does not end with the
literal suffix ".pdf" (the case-insensitive test on line 122 keeps an
upper-case suffix as is). -/
theorem safe_filename_counterexample :
    safe_filename "!!!" "doc" = ".pdf" ∧ (".pdf" : String) ≠ "doc.pdf" ∧
    safe_filename "a.PDF" "doc" = "a.PDF" ∧
    (safe_filename "a.PDF" "doc").data.drop 1 = ".PDF".data ∧
    (".PDF" : String) ≠ ".pdf" := by
  refine ⟨by decide, by decide, by decide, by decide, by decide⟩

/-- Claim C9 (amended): for every input filename string (including empty and
all-special-character strings) and every default, `safe_filename` returns a
non-empty name whose characters are only (modelled) alphanumerics plus
underscore, hyphen and dot, and whose last four characters lowercase to ".pdf"
(an existing ".pdf"/".PDF"-style suffix keeps its original case; otherwise
".pdf" is appended).  The appended or preserved suffix always survives
sanitization, so the sanitized name is never empty and the `or`-fallback to
the default-based name is unreachable; an empty (falsy) input falls back to
the default as the base name before the suffix rule. -/
theorem safe_filename_spec (filename default : String) :
    safe_filename filename default ≠ "" ∧
    (safe_filename filename default).data.all keepChar = true ∧
    lowerEndsWithPdf (safe_filename filename default).data = true := by
  have hpdf : lowerEndsWithPdf (sfNamed filename default) = true := by
    unfold sfNamed
    by_cases h : lowerEndsWithPdf (sfBase filename default)
    · simp [h]
    · simp only [h, Bool.false_eq_true, if_neg, not_false_iff]
      simp [lowerEndsWithPdf, List.reverse_append]
  rcases filter_keep_of_pdf (sfNamed filename default) hpdf with ⟨hp2, hne⟩
  unfold safe_filename
  rw [if_neg hne]
  refine ⟨?_, ?_, hp2⟩
  · intro hcon
    apply hne
    have : ((String.mk ((sfNamed filename default).filter keepChar)).data) =
        ("" : String).data := by rw [hcon]
    simpa using this
  · exact List.all_eq_true.mpr fun c hc => (List.mem_filter.mp hc).2

/-! ## Source Resolver (`extract_google_drive_file_id`,
src/services/pipeline_runner.py 78-103) -/

/-- Split a character list at the first occurrence of `c`:
(before, some after) when found, (whole, none) otherwise. -/
def splitOnFirst (c : Char) : List Char → List Char × Option (List Char)
  | [] => ([], none)
  | x :: xs =>
    if x = c then ([], some xs)
    else
      match splitOnFirst c xs with
      | (a, b) => (x :: a, b)

/-- Valid scheme characters of `urllib.parse` (letters, digits, `+-.`). -/
def schemeChar (c : Char) : Bool := c.isAlphanum || c = '+' || c = '-' || c = '.'

/-- ASCII lowercasing applied to the scheme. -/
def lowerChar (c : Char) : Char :=
  if 'A' ≤ c && c ≤ 'Z' then Char.ofNat (c.toNat + 32) else c

/-- Scheme extraction of `urlsplit`: the text before the first ':' is the
scheme when it is non-empty, starts with a letter and uses only scheme
characters; otherwise the URL has no scheme and is left whole. -/
def schemeSplit (l : List Char) : List Char × List Char :=
  match splitOnFirst ':' l with
  | (pre, some rest) =>
    match pre with
    | [] => ([], l)
    | c0 :: _ =>
      if c0.isAlpha && pre.all schemeChar then (pre.map lowerChar, rest) else ([], l)
  | (_, none) => ([], l)

/-- A character that may appear in the netloc (it runs to the first `/?#`). -/
def netlocChar (c : Char) : Bool := c ≠ '/' && c ≠ '?' && c ≠ '#'

/-- Netloc extraction of `urlsplit`: only after a leading "//", up to the first
`/`, `?` or `#`. -/
def netlocSplit (l : List Char) : List Char × List Char :=
  match l with
  | a :: b :: rest =>
    if a = '/' ∧ b = '/' then (rest.takeWhile netlocChar, rest.dropWhile netlocChar)
    else ([], l)
  | _ => ([], l)

/-- The components of `urllib.parse.urlparse` this resolver reads. -/
structure ParsedUrl where
  scheme : List Char
  netloc : List Char
  path : List Char
  query : List Char
  fragment : List Char

/-- The non-raising fragment of `urllib.parse.urlparse` restricted to scheme,
netloc, path, query and fragment, in CPython order: scheme first, netloc after
a leading "//", the fragment at the first '#', the query at the first '?'.
CPython additionally validates the netloc and raises `ValueError` when it
contains brackets (unbalanced, or a bracketed host the stdlib rejects); that
error path is modelled separately by `urlsplitE` below, which agrees with this
function on every input it accepts.  The params split on ';' and percent/plus
decoding are not modelled; no input considered here carries them. -/
def urlparseL (l : List Char) : ParsedUrl :=
  let s1 := schemeSplit l
  let s2 := netlocSplit s1.2
  let s3 := splitOnFirst '#' s2.2
  let s4 := splitOnFirst '?' s3.1
  { scheme := s1.1, netloc := s2.1, path := s4.1,
    query := (s4.2).getD [], fragment := (s3.2).getD [] }

/-- Python `str.split(sep)` for a one-character separator: every occurrence
splits, empty segments kept (so "".split gives [""]). -/
def splitAll (c : Char) : List Char → List (List Char)
  | [] => [[]]
  | x :: xs =>
    if x = c then [] :: splitAll c xs
    else
      match splitAll c xs with
      | [] => [[x]]
      | a :: rest => (x :: a) :: rest

/-- One `name=value` segment of `urllib.parse.parse_qsl` with default settings:
an empty segment is skipped, a segment without '=' is skipped
(`keep_blank_values=False` drops it), and a pair with an empty value is
skipped. -/
def parseQsPair (nv : List Char) : Option (List Char × List Char) :=
  if nv = [] then none
  else
    match splitOnFirst '=' nv with
    | (_, none) => none
    | (n, some v) => if v = [] then none else some (n, v)

/-- Model of `urllib.parse.parse_qs` as the ordered pair list it aggregates
(dict key order is first insertion; values in order). -/
def parse_qsl (q : List Char) : List (List Char × List Char) :=
  (splitAll '&' q).filterMap parseQsPair

/-- Dict test `key in query_params`. -/
def qsHasKey (key : List Char) (pairs : List (List Char × List Char)) : Bool :=
  pairs.any (fun p => p.1 = key)

/-- Dict access `query_params[key][0]`: the first value stored under `key`. -/
def qsFirst (key : List Char) : List (List Char × List Char) → Option (List Char)
  | [] => none
  | p :: ps => if p.1 = key then some p.2 else qsFirst key ps

/-- Path split of the resolver (src/services/pipeline_runner.py 87):
`[part for part in parsed.path.split("/") if part]`. -/
def pathPartsOf (path : List Char) : List (List Char) :=
  (splitAll '/' path).filter (fun part => part ≠ [])

/-- Query branches of the resolver (src/services/pipeline_runner.py 93-103):
any `id` key with a non-blank value wins; the explicit `export=download`
branch re-checks the same `id` key and so can never produce anything the
previous branch did not; otherwise None. -/
def extractFromQuery (q : List Char) : Option (List Char) :=
  match qsFirst "id".data (parse_qsl q) with
  | some v => some v
  | none =>
    if qsHasKey "export".data (parse_qsl q) &&
        ((parse_qsl q).filter (fun p => p.1 = "export".data)).any
          (fun p => p.2 = "download".data) then
      match qsFirst "id".data (parse_qsl q) with
      | some v => some v
      | none => none
    else none

/-- Prefix test used by the substring check below. -/
def leadsWith : List Char → List Char → Bool
  | [], _ => true
  | _ :: _, [] => false
  | a :: as, b :: bs => a = b && leadsWith as bs

/-- Python substring test `pat in s` on character lists. -/
def containsSeq (pat : List Char) : List Char → Bool
  | [] => pat = []
  | x :: rest => leadsWith pat (x :: rest) || containsSeq pat rest

/-- The non-raising fragment of `extract_google_drive_file_id`
(src/services/pipeline_runner.py 78-103) on character lists: empty input is
rejected, the stripped URL is parsed, the netloc must contain "drive.google.",
then the `/file/d/<id>/...` path shape is tried and finally the query branches.
The function calls `urlparse` with no try/except, so `urlparse`'s `ValueError`
on bracketed netlocs escapes it; `extractFileIdE` below adds that error path
and agrees with this function whenever parsing succeeds. -/
def extractFileId (url : List Char) : Option (List Char) :=
  if url = [] then none
  else
    if containsSeq "drive.google.".data (urlparseL (pyStripList url)).netloc then
      match pathPartsOf (urlparseL (pyStripList url)).path with
      | p0 :: p1 :: p2 :: _ =>
        if p0 = "file".data ∧ p1 = "d".data then some p2
        else extractFromQuery (urlparseL (pyStripList url)).query
      | _ => extractFromQuery (urlparseL (pyStripList url)).query
    else none

/-- The non-raising fragment of `extract_google_drive_file_id` on strings (see
`extract_google_drive_file_idE` for the full model with the ValueError path). -/
def extract_google_drive_file_id (url : String) : Option String :=
  (extractFileId url.data).map String.mk

/-- Characters of a plain Google Drive file id (alphanumerics, `-`, `_`). -/
def plainIdChar (c : Char) : Bool := c.isAlphanum || c = '-' || c = '_'

theorem splitOnFirst_not_mem (c : Char) (l : List Char) (h : c ∉ l) :
    splitOnFirst c l = (l, none) := by
  induction l with
  | nil => rfl
  | cons x xs ih =>
    rw [splitOnFirst, if_neg (by rintro rfl; exact h (List.mem_cons_self _ _)),
      ih (fun hx => h (List.mem_cons_of_mem _ hx))]

theorem splitOnFirst_found (c : Char) (l1 l2 : List Char) (h : c ∉ l1) :
    splitOnFirst c (l1 ++ c :: l2) = (l1, some l2) := by
  induction l1 with
  | nil => simp [splitOnFirst]
  | cons x xs ih =>
    rw [List.cons_append, splitOnFirst,
      if_neg (by rintro rfl; exact h (List.mem_cons_self _ _)),
      ih (fun hx => h (List.mem_cons_of_mem _ hx))]

theorem takeWhile_append_stop (p : Char → Bool) (l1 : List Char) (x : Char)
    (tl : List Char) (h1 : ∀ a ∈ l1, p a = true) (hx : p x = false) :
    (l1 ++ x :: tl).takeWhile p = l1 ∧ (l1 ++ x :: tl).dropWhile p = x :: tl := by
  induction l1 with
  | nil => simp [List.takeWhile_cons, List.dropWhile_cons, hx]
  | cons a as ih =>
    have ha : p a = true := h1 a (List.mem_cons_self _ _)
    have ih2 := ih (fun b hb => h1 b (List.mem_cons_of_mem _ hb))
    simp [List.takeWhile_cons, List.dropWhile_cons, ha, ih2.1, ih2.2]

theorem dropWhile_all_false (p : Char → Bool) (l : List Char)
    (h : ∀ c ∈ l, p c = false) : l.dropWhile p = l := by
  cases l with
  | nil => rfl
  | cons x xs =>
    rw [List.dropWhile_cons, if_neg (by simp [h x (List.mem_cons_self _ _)])]

theorem pyStripList_eq_self (l : List Char)
    (h : ∀ c ∈ l, c.isWhitespace = false) : pyStripList l = l := by
  unfold pyStripList
  rw [dropWhile_all_false _ l h,
    dropWhile_all_false _ l.reverse (fun c hc => h c (List.mem_reverse.mp hc)),
    List.reverse_reverse]

theorem splitAll_sep_head (c : Char) (l : List Char) :
    splitAll c (c :: l) = [] :: splitAll c l := by
  simp [splitAll]

theorem splitAll_ne_nil (c : Char) (l : List Char) : splitAll c l ≠ [] := by
  cases l with
  | nil => simp [splitAll]
  | cons x xs =>
    rw [splitAll]
    by_cases h : x = c
    · simp [h]
    · rw [if_neg h]
      cases hs : splitAll c xs <;> simp

theorem splitAll_no_sep (c : Char) (l : List Char) (h : c ∉ l) :
    splitAll c l = [l] := by
  induction l with
  | nil => rfl
  | cons x xs ih =>
    rw [splitAll, if_neg (by rintro rfl; exact h (List.mem_cons_self _ _)),
      ih (fun hx => h (List.mem_cons_of_mem _ hx))]

theorem splitAll_seg (c : Char) (seg rest : List Char) (h : c ∉ seg) :
    splitAll c (seg ++ c :: rest) = seg :: splitAll c rest := by
  induction seg with
  | nil => simp [splitAll_sep_head]
  | cons x xs ih =>
    rw [List.cons_append, splitAll,
      if_neg (by rintro rfl; exact h (List.mem_cons_self _ _)),
      ih (fun hx => h (List.mem_cons_of_mem _ hx))]

theorem not_mem_of_all_plain (idl : List Char) (hall : idl.all plainIdChar = true)
    (c : Char) (hc : plainIdChar c = false) : c ∉ idl := by
  intro hmem
  have h := List.all_eq_true.mp hall c hmem
  rw [hc] at h
  exact absurd h (by simp)

theorem plain_not_ws (idl : List Char) (hall : idl.all plainIdChar = true) :
    ∀ c ∈ idl, c.isWhitespace = false := by
  intro c hc
  have h := List.all_eq_true.mp hall c hc
  cases hw : c.isWhitespace
  · rfl
  · exfalso
    by_cases h1 : c = ' '
    · subst h1; simp [plainIdChar] at h
    by_cases h2 : c = '\t'
    · subst h2; simp [plainIdChar] at h
    by_cases h3 : c = '\r'
    · subst h3; simp [plainIdChar] at h
    by_cases h4 : c = '\n'
    · subst h4; simp [plainIdChar] at h
    · simp [Char.isWhitespace, h1, h2, h3, h4] at hw

theorem schemeSplit_of_scheme (c0 : Char) (rest0 R : List Char)
    (hpre : ':' ∉ c0 :: rest0)
    (hvalid : (c0.isAlpha && (c0 :: rest0).all schemeChar) = true) :
    schemeSplit ((c0 :: rest0) ++ ':' :: R) = ((c0 :: rest0).map lowerChar, R) := by
  unfold schemeSplit
  rw [splitOnFirst_found ':' _ R hpre]
  show (if c0.isAlpha && (c0 :: rest0).all schemeChar
      then ((c0 :: rest0).map lowerChar, R)
      else ([], (c0 :: rest0) ++ ':' :: R)) = ((c0 :: rest0).map lowerChar, R)
  rw [hvalid]
  rfl

theorem netlocSplit_of_netloc (nl : List Char) (x : Char) (tl : List Char)
    (hnl : ∀ a ∈ nl, netlocChar a = true) (hx : netlocChar x = false) :
    netlocSplit ('/' :: '/' :: (nl ++ x :: tl)) = (nl, x :: tl) := by
  unfold netlocSplit
  rcases takeWhile_append_stop netlocChar nl x tl hnl hx with ⟨h1, h2⟩
  simp [h1, h2]

theorem urlparseL_drive (rest : List Char) (hhash : '#' ∉ ('/' :: rest)) :
    urlparseL ("https://drive.google.com".data ++ '/' :: rest) =
      { scheme := "https".data, netloc := "drive.google.com".data,
        path := (splitOnFirst '?' ('/' :: rest)).1,
        query := ((splitOnFirst '?' ('/' :: rest)).2).getD [],
        fragment := [] } := by
  have e1 : "https://drive.google.com".data =
      ('h' :: ['t', 't', 'p', 's']) ++ ':' ::
        ('/' :: '/' :: "drive.google.com".data) := by decide
  have hscheme : schemeSplit ("https://drive.google.com".data ++ '/' :: rest) =
      (['h', 't', 't', 'p', 's'].map lowerChar,
        '/' :: '/' :: ("drive.google.com".data ++ '/' :: rest)) := by
    conv_lhs => rw [e1]
    have hs := schemeSplit_of_scheme 'h' ['t', 't', 'p', 's']
        ('/' :: '/' :: ("drive.google.com".data ++ '/' :: rest)) (by decide) (by decide)
    simp only [List.cons_append, List.nil_append, List.append_assoc] at hs ⊢
    exact hs
  have hmap : (['h', 't', 't', 'p', 's'].map lowerChar) = "https".data := by decide
  have hnetloc : netlocSplit ('/' :: '/' :: ("drive.google.com".data ++ '/' :: rest)) =
      ("drive.google.com".data, '/' :: rest) :=
    netlocSplit_of_netloc _ '/' rest (by decide) (by decide)
  have hfrag : splitOnFirst '#' ('/' :: rest) = ('/' :: rest, none) :=
    splitOnFirst_not_mem '#' _ hhash
  unfold urlparseL
  rw [hscheme, hmap]
  simp only
  rw [hnetloc]
  simp only
  rw [hfrag]
  rfl

theorem noWsAppend (l1 l2 : List Char)
    (h1 : ∀ c ∈ l1, c.isWhitespace = false)
    (h2 : ∀ c ∈ l2, c.isWhitespace = false) :
    ∀ c ∈ l1 ++ l2, c.isWhitespace = false := by
  intro c hc
  rcases List.mem_append.mp hc with h | h
  · exact h1 c h
  · exact h2 c h

theorem noWsCons (x : Char) (l : List Char) (hx : x.isWhitespace = false)
    (h : ∀ c ∈ l, c.isWhitespace = false) :
    ∀ c ∈ x :: l, c.isWhitespace = false := by
  intro c hc
  rcases List.mem_cons.mp hc with rfl | h2
  · exact hx
  · exact h c h2

theorem charNotMemAppend (c : Char) (l1 l2 : List Char) (h1 : c ∉ l1) (h2 : c ∉ l2) :
    c ∉ l1 ++ l2 := fun h => (List.mem_append.mp h).elim h1 h2

theorem charNotMemCons (c x : Char) (l : List Char) (hx : c ≠ x) (h : c ∉ l) :
    c ∉ x :: l := by
  intro hc
  rcases List.mem_cons.mp hc with rfl | hc2
  · exact hx rfl
  · exact h hc2

theorem extractFileId_file_d (idl : List Char) (hne : idl ≠ [])
    (hall : idl.all plainIdChar = true) :
    extractFileId
      ("https://drive.google.com/file/d/".data ++ idl ++ "/view".data) = some idl := by
  have hns := not_mem_of_all_plain idl hall
  have hws := plain_not_ws idl hall
  have e0 : "https://drive.google.com/file/d/".data ++ idl ++ "/view".data =
      "https://drive.google.com".data ++ '/' ::
        ("file".data ++ '/' :: ("d".data ++ '/' :: (idl ++ '/' :: "view".data))) := by
    have e1 : "https://drive.google.com/file/d/".data =
        "https://drive.google.com".data ++ '/' ::
          ("file".data ++ '/' :: ("d".data ++ ['/'])) := by decide
    have e2 : "/view".data = '/' :: "view".data := by decide
    rw [e1, e2]
    simp [List.append_assoc, List.cons_append, List.singleton_append]
  rw [e0]
  have hwsD : ∀ c ∈ "file".data ++ '/' :: ("d".data ++ '/' :: (idl ++ '/' :: "view".data)),
      c.isWhitespace = false :=
    noWsAppend _ _ (by decide)
      (noWsCons _ _ (by decide)
        (noWsAppend _ _ (by decide)
          (noWsCons _ _ (by decide)
            (noWsAppend _ _ hws (noWsCons _ _ (by decide) (by decide))))))
  have hstrip : pyStripList ("https://drive.google.com".data ++ '/' ::
      ("file".data ++ '/' :: ("d".data ++ '/' :: (idl ++ '/' :: "view".data)))) =
      "https://drive.google.com".data ++ '/' ::
        ("file".data ++ '/' :: ("d".data ++ '/' :: (idl ++ '/' :: "view".data))) :=
    pyStripList_eq_self _
      (noWsAppend _ _ (by decide) (noWsCons _ _ (by decide) hwsD))
  have hhash : '#' ∉ '/' :: ("file".data ++ '/' :: ("d".data ++ '/' ::
      (idl ++ '/' :: "view".data))) :=
    charNotMemCons _ _ _ (by decide)
      (charNotMemAppend _ _ _ (by decide)
        (charNotMemCons _ _ _ (by decide)
          (charNotMemAppend _ _ _ (by decide)
            (charNotMemCons _ _ _ (by decide)
              (charNotMemAppend _ _ _ (hns '#' (by decide))
                (charNotMemCons _ _ _ (by decide) (by decide)))))))
  have hqm : '?' ∉ '/' :: ("file".data ++ '/' :: ("d".data ++ '/' ::
      (idl ++ '/' :: "view".data))) :=
    charNotMemCons _ _ _ (by decide)
      (charNotMemAppend _ _ _ (by decide)
        (charNotMemCons _ _ _ (by decide)
          (charNotMemAppend _ _ _ (by decide)
            (charNotMemCons _ _ _ (by decide)
              (charNotMemAppend _ _ _ (hns '?' (by decide))
                (charNotMemCons _ _ _ (by decide) (by decide)))))))
  have hq : splitOnFirst '?' ('/' :: ("file".data ++ '/' :: ("d".data ++ '/' ::
      (idl ++ '/' :: "view".data)))) =
      ('/' :: ("file".data ++ '/' :: ("d".data ++ '/' :: (idl ++ '/' :: "view".data))),
        none) :=
    splitOnFirst_not_mem '?' _ hqm
  have hparts : pathPartsOf ('/' :: ("file".data ++ '/' :: ("d".data ++ '/' ::
      (idl ++ '/' :: "view".data)))) = ["file".data, "d".data, idl, "view".data] := by
    unfold pathPartsOf
    rw [splitAll_sep_head, splitAll_seg '/' "file".data _ (by decide),
      splitAll_seg '/' "d".data _ (by decide),
      splitAll_seg '/' idl _ (hns '/' (by decide)),
      splitAll_no_sep '/' "view".data (by decide)]
    simp [List.filter_cons, hne]
  unfold extractFileId
  rw [if_neg (by simp), hstrip, urlparseL_drive _ hhash]
  dsimp only
  rw [hq]
  dsimp only
  rw [hparts]
  dsimp only
  rw [if_pos (by decide), if_pos ⟨rfl, rfl⟩]

theorem extractFileId_open_id (idl : List Char) (hne : idl ≠ [])
    (hall : idl.all plainIdChar = true) :
    extractFileId ("https://drive.google.com/open?id=".data ++ idl) = some idl := by
  have hns := not_mem_of_all_plain idl hall
  have hws := plain_not_ws idl hall
  have e0 : "https://drive.google.com/open?id=".data ++ idl =
      "https://drive.google.com".data ++ '/' ::
        ("open".data ++ '?' :: ("id".data ++ '=' :: idl)) := by
    have e1 : "https://drive.google.com/open?id=".data =
        "https://drive.google.com".data ++ '/' ::
          ("open".data ++ '?' :: ("id".data ++ ['='])) := by decide
    rw [e1]
    simp [List.append_assoc, List.cons_append, List.singleton_append]
  rw [e0]
  have hstrip : pyStripList ("https://drive.google.com".data ++ '/' ::
      ("open".data ++ '?' :: ("id".data ++ '=' :: idl))) =
      "https://drive.google.com".data ++ '/' ::
        ("open".data ++ '?' :: ("id".data ++ '=' :: idl)) :=
    pyStripList_eq_self _
      (noWsAppend _ _ (by decide)
        (noWsCons _ _ (by decide)
          (noWsAppend _ _ (by decide)
            (noWsCons _ _ (by decide)
              (noWsAppend _ _ (by decide) (noWsCons _ _ (by decide) hws))))))
  have hhash : '#' ∉ '/' :: ("open".data ++ '?' :: ("id".data ++ '=' :: idl)) :=
    charNotMemCons _ _ _ (by decide)
      (charNotMemAppend _ _ _ (by decide)
        (charNotMemCons _ _ _ (by decide)
          (charNotMemAppend _ _ _ (by decide)
            (charNotMemCons _ _ _ (by decide) (hns '#' (by decide))))))
  have hq : splitOnFirst '?' ('/' :: ("open".data ++ '?' :: ("id".data ++ '=' :: idl))) =
      ('/' :: "open".data, some ("id".data ++ '=' :: idl)) := by
    have hfound := splitOnFirst_found '?' ('/' :: "open".data)
      ("id".data ++ '=' :: idl) (by decide)
    simpa [List.cons_append] using hfound
  have hparts : pathPartsOf ('/' :: "open".data) = ["open".data] := by
    unfold pathPartsOf
    rw [splitAll_sep_head, splitAll_no_sep '/' "open".data (by decide)]
    simp [List.filter_cons]
  have hsegs : splitAll '&' ("id".data ++ '=' :: idl) = ["id".data ++ '=' :: idl] :=
    splitAll_no_sep '&' _
      (charNotMemAppend _ _ _ (by decide)
        (charNotMemCons _ _ _ (by decide) (hns '&' (by decide))))
  have hpair : parseQsPair ("id".data ++ '=' :: idl) = some ("id".data, idl) := by
    unfold parseQsPair
    rw [if_neg (by simp), splitOnFirst_found '=' "id".data idl (by decide)]
    dsimp only
    rw [if_neg hne]
  have hqsl : parse_qsl ("id".data ++ '=' :: idl) = [("id".data, idl)] := by
    unfold parse_qsl
    rw [hsegs, List.filterMap_cons, hpair]
    dsimp only
    rw [List.filterMap_nil]
  have hfq : extractFromQuery ("id".data ++ '=' :: idl) = some idl := by
    unfold extractFromQuery
    rw [hqsl]
    simp [qsFirst]
  unfold extractFileId
  rw [if_neg (by simp), hstrip, urlparseL_drive _ hhash]
  dsimp only
  rw [hq]
  dsimp only
  rw [hparts]
  dsimp only
  exact hfq

theorem extractFileId_export_download (idl : List Char) (hne : idl ≠ [])
    (hall : idl.all plainIdChar = true) :
    extractFileId ("https://drive.google.com/uc?export=download&id=".data ++ idl) =
      some idl := by
  have hns := not_mem_of_all_plain idl hall
  have hws := plain_not_ws idl hall
  have e0 : "https://drive.google.com/uc?export=download&id=".data ++ idl =
      "https://drive.google.com".data ++ '/' ::
        ("uc".data ++ '?' ::
          ("export=download".data ++ '&' :: ("id".data ++ '=' :: idl))) := by
    have e1 : "https://drive.google.com/uc?export=download&id=".data =
        "https://drive.google.com".data ++ '/' ::
          ("uc".data ++ '?' ::
            ("export=download".data ++ '&' :: ("id".data ++ ['=']))) := by decide
    rw [e1]
    simp [List.append_assoc, List.cons_append, List.singleton_append]
  rw [e0]
  have hstrip : pyStripList ("https://drive.google.com".data ++ '/' ::
      ("uc".data ++ '?' ::
        ("export=download".data ++ '&' :: ("id".data ++ '=' :: idl)))) =
      "https://drive.google.com".data ++ '/' ::
        ("uc".data ++ '?' ::
          ("export=download".data ++ '&' :: ("id".data ++ '=' :: idl))) :=
    pyStripList_eq_self _
      (noWsAppend _ _ (by decide)
        (noWsCons _ _ (by decide)
          (noWsAppend _ _ (by decide)
            (noWsCons _ _ (by decide)
              (noWsAppend _ _ (by decide)
                (noWsCons _ _ (by decide)
                  (noWsAppend _ _ (by decide)
                    (noWsCons _ _ (by decide) hws))))))))
  have hhash : '#' ∉ '/' :: ("uc".data ++ '?' ::
      ("export=download".data ++ '&' :: ("id".data ++ '=' :: idl))) :=
    charNotMemCons _ _ _ (by decide)
      (charNotMemAppend _ _ _ (by decide)
        (charNotMemCons _ _ _ (by decide)
          (charNotMemAppend _ _ _ (by decide)
            (charNotMemCons _ _ _ (by decide)
              (charNotMemAppend _ _ _ (by decide)
                (charNotMemCons _ _ _ (by decide) (hns '#' (by decide))))))))
  have hq : splitOnFirst '?' ('/' :: ("uc".data ++ '?' ::
      ("export=download".data ++ '&' :: ("id".data ++ '=' :: idl)))) =
      ('/' :: "uc".data,
        some ("export=download".data ++ '&' :: ("id".data ++ '=' :: idl))) := by
    have hfound := splitOnFirst_found '?' ('/' :: "uc".data)
      ("export=download".data ++ '&' :: ("id".data ++ '=' :: idl)) (by decide)
    simpa [List.cons_append] using hfound
  have hparts : pathPartsOf ('/' :: "uc".data) = ["uc".data] := by
    unfold pathPartsOf
    rw [splitAll_sep_head, splitAll_no_sep '/' "uc".data (by decide)]
    simp [List.filter_cons]
  have hsegs : splitAll '&'
      ("export=download".data ++ '&' :: ("id".data ++ '=' :: idl)) =
      ["export=download".data, "id".data ++ '=' :: idl] := by
    rw [splitAll_seg '&' "export=download".data _ (by decide),
      splitAll_no_sep '&' _
        (charNotMemAppend _ _ _ (by decide)
          (charNotMemCons _ _ _ (by decide) (hns '&' (by decide))))]
  have hpair1 : parseQsPair "export=download".data =
      some ("export".data, "download".data) := by decide
  have hpair2 : parseQsPair ("id".data ++ '=' :: idl) = some ("id".data, idl) := by
    unfold parseQsPair
    rw [if_neg (by simp), splitOnFirst_found '=' "id".data idl (by decide)]
    dsimp only
    rw [if_neg hne]
  have hqsl : parse_qsl ("export=download".data ++ '&' :: ("id".data ++ '=' :: idl)) =
      [("export".data, "download".data), ("id".data, idl)] := by
    unfold parse_qsl
    rw [hsegs, List.filterMap_cons, hpair1]
    dsimp only
    rw [List.filterMap_cons, hpair2]
    dsimp only
    rw [List.filterMap_nil]
  have hfq : extractFromQuery
      ("export=download".data ++ '&' :: ("id".data ++ '=' :: idl)) = some idl := by
    unfold extractFromQuery
    rw [hqsl]
    simp [qsFirst]
  unfold extractFileId
  rw [if_neg (by simp), hstrip, urlparseL_drive _ hhash]
  dsimp only
  rw [hq]
  dsimp only
  rw [hparts]
  dsimp only
  exact hfq

theorem extractFromQuery_some (q x : List Char) (h : extractFromQuery q = some x) :
    qsFirst "id".data (parse_qsl q) = some x := by
  unfold extractFromQuery at h
  cases hq : qsFirst "id".data (parse_qsl q) with
  | some v =>
    rw [hq] at h
    dsimp only at h
    exact h
  | none =>
    rw [hq] at h
    dsimp only at h
    split at h <;> simp at h

theorem extractFileId_some_shape (url x : List Char) (h : extractFileId url = some x) :
    containsSeq "drive.google.".data (urlparseL (pyStripList url)).netloc = true ∧
    ((∃ rest, pathPartsOf (urlparseL (pyStripList url)).path =
        "file".data :: "d".data :: x :: rest) ∨
      qsFirst "id".data (parse_qsl (urlparseL (pyStripList url)).query) = some x) := by
  unfold extractFileId at h
  by_cases hempty : url = []
  · rw [if_pos hempty] at h
    simp at h
  rw [if_neg hempty] at h
  by_cases hcont :
      containsSeq "drive.google.".data (urlparseL (pyStripList url)).netloc = true
  · refine ⟨hcont, ?_⟩
    rw [if_pos hcont] at h
    rcases hparts : pathPartsOf (urlparseL (pyStripList url)).path with
      _ | ⟨p0, _ | ⟨p1, _ | ⟨p2, rest⟩⟩⟩
    · rw [hparts] at h
      dsimp only at h
      exact Or.inr (extractFromQuery_some _ _ h)
    · rw [hparts] at h
      dsimp only at h
      exact Or.inr (extractFromQuery_some _ _ h)
    · rw [hparts] at h
      dsimp only at h
      exact Or.inr (extractFromQuery_some _ _ h)
    · rw [hparts] at h
      dsimp only at h
      by_cases hfd : p0 = "file".data ∧ p1 = "d".data
      · rw [if_pos hfd] at h
        injection h with h2
        subst h2
        exact Or.inl ⟨rest, by rw [hfd.1, hfd.2]⟩
      · rw [if_neg hfd] at h
        exact Or.inr (extractFromQuery_some _ _ h)
  · rw [if_neg hcont] at h
    simp at h


/-! ## Error paths of `urlparse` (netloc bracket validation)

CPython's `urlsplit` validates the netloc it extracts: a netloc with an
unbalanced square bracket raises `ValueError` ("Invalid IPv6 URL") in every
CPython version, and a netloc with a balanced bracket pair has its bracketed
host further validated by stdlib code whose acceptance is version-dependent
(`_check_bracketed_host`, Python 3.11+; earlier versions accept any balanced
pair).  `extract_google_drive_file_id` calls `urlparse` with no try/except
(src/services/pipeline_runner.py 83), so these exceptions escape it. -/

/-- Netloc extraction of `urlsplit` with its `ValueError` paths: the
version-dependent bracketed-host validation is the oracle `hostCheck`
(`fun _ => .ok ()` is the pre-3.11 behaviour); every `.ok` result agrees with
the non-raising `netlocSplit`. -/
def netlocSplitE (hostCheck : List Char → Except String Unit) (l : List Char) :
    Except String (List Char × List Char) :=
  match l with
  | a :: b :: rest =>
    if a = '/' ∧ b = '/' then
      if ('[' ∈ rest.takeWhile netlocChar ∧ ']' ∉ rest.takeWhile netlocChar) ∨
          (']' ∈ rest.takeWhile netlocChar ∧ '[' ∉ rest.takeWhile netlocChar) then
        .error "Invalid IPv6 URL"
      else if '[' ∈ rest.takeWhile netlocChar ∧ ']' ∈ rest.takeWhile netlocChar then
        match hostCheck (rest.takeWhile netlocChar) with
        | .error e => .error e
        | .ok _ => .ok (rest.takeWhile netlocChar, rest.dropWhile netlocChar)
      else .ok (rest.takeWhile netlocChar, rest.dropWhile netlocChar)
    else .ok ([], l)
  | _ => .ok ([], l)

/-- Model of `urlsplit`/`urlparse` with its `ValueError` paths; on every input
it accepts, it returns exactly `urlparseL`. -/
def urlsplitE (hostCheck : List Char → Except String Unit) (l : List Char) :
    Except String ParsedUrl :=
  match netlocSplitE hostCheck (schemeSplit l).2 with
  | .error e => .error e
  | .ok nl =>
    .ok { scheme := (schemeSplit l).1, netloc := nl.1,
          path := (splitOnFirst '?' (splitOnFirst '#' nl.2).1).1,
          query := ((splitOnFirst '?' (splitOnFirst '#' nl.2).1).2).getD [],
          fragment := ((splitOnFirst '#' nl.2).2).getD [] }

/-- Model of `extract_google_drive_file_id` (src/services/pipeline_runner.py
78-103) with the `ValueError` path of the unguarded `urlparse` call on line 83:
an `.error` is an exception escaping the function, an `.ok` is its return
value. -/
def extractFileIdE (hostCheck : List Char → Except String Unit) (url : List Char) :
    Except String (Option (List Char)) :=
  if url = [] then .ok none
  else
    match urlsplitE hostCheck (pyStripList url) with
    | .error e => .error e
    | .ok parsed =>
      .ok (if containsSeq "drive.google.".data parsed.netloc then
          match pathPartsOf parsed.path with
          | p0 :: p1 :: p2 :: _ =>
            if p0 = "file".data ∧ p1 = "d".data then some p2
            else extractFromQuery parsed.query
          | _ => extractFromQuery parsed.query
        else none)

/-- Model of `extract_google_drive_file_id` on strings, with its exception
path. -/
def extract_google_drive_file_idE (hostCheck : List Char → Except String Unit)
    (url : String) : Except String (Option String) :=
  (extractFileIdE hostCheck url.data).map (fun r => r.map String.mk)

theorem splitOnFirst_eq_some (c : Char) (l a r : List Char)
    (h : splitOnFirst c l = (a, some r)) : l = a ++ c :: r := by
  induction l generalizing a with
  | nil => simp [splitOnFirst] at h
  | cons x xs ih =>
    rw [splitOnFirst] at h
    by_cases hx : x = c
    · rw [if_pos hx] at h
      obtain ⟨rfl, hr⟩ := Prod.mk.injEq .. ▸ h
      injection hr with hr
      subst hr
      rw [hx]
      rfl
    · rw [if_neg hx] at h
      cases hsp : splitOnFirst c xs with
      | mk a' b' =>
        rw [hsp] at h
        obtain ⟨ha, hb⟩ := Prod.mk.injEq .. ▸ h
        subst ha
        subst hb
        rw [List.cons_append]
        rw [← ih a' hsp]

theorem mem_schemeSplit_snd (l : List Char) (c : Char)
    (h : c ∈ (schemeSplit l).2) : c ∈ l := by
  unfold schemeSplit at h
  cases hsp : splitOnFirst ':' l with
  | mk pre tail =>
    rw [hsp] at h
    cases tail with
    | none => exact h
    | some r =>
      cases pre with
      | nil => exact h
      | cons c0 pre0 =>
        dsimp only at h
        by_cases hv : (c0.isAlpha && (c0 :: pre0).all schemeChar) = true
        · rw [if_pos hv] at h
          rw [splitOnFirst_eq_some ':' l (c0 :: pre0) r hsp]
          exact List.mem_append.mpr (Or.inr (List.mem_cons_of_mem _ h))
        · rw [if_neg hv] at h
          exact h

theorem mem_pyStripList (l : List Char) (c : Char) (h : c ∈ pyStripList l) :
    c ∈ l := by
  unfold pyStripList at h
  rw [List.mem_reverse] at h
  have h2 := List.Sublist.subset (List.dropWhile_sublist _) h
  rw [List.mem_reverse] at h2
  exact List.Sublist.subset (List.dropWhile_sublist _) h2

theorem netlocSplitE_no_brackets (hostCheck : List Char → Except String Unit)
    (l : List Char) (h1 : '[' ∉ l) (h2 : ']' ∉ l) :
    netlocSplitE hostCheck l = .ok (netlocSplit l) := by
  unfold netlocSplitE netlocSplit
  cases l with
  | nil => rfl
  | cons a tl =>
    cases tl with
    | nil => rfl
    | cons b rest =>
      dsimp only
      by_cases hab : a = '/' ∧ b = '/'
      · rw [if_pos hab, if_pos hab]
        have hb1 : '[' ∉ rest.takeWhile netlocChar := fun hm =>
          h1 (List.mem_cons_of_mem _ (List.mem_cons_of_mem _
            (List.Sublist.subset (List.takeWhile_sublist _) hm)))
        have hb2 : ']' ∉ rest.takeWhile netlocChar := fun hm =>
          h2 (List.mem_cons_of_mem _ (List.mem_cons_of_mem _
            (List.Sublist.subset (List.takeWhile_sublist _) hm)))
        rw [if_neg (by simp [hb1, hb2]), if_neg (by simp [hb1])]
      · rw [if_neg hab, if_neg hab]

theorem netlocSplitE_ok_eq (hostCheck : List Char → Except String Unit)
    (l : List Char) (nl : List Char × List Char)
    (h : netlocSplitE hostCheck l = .ok nl) : nl = netlocSplit l := by
  unfold netlocSplitE at h
  unfold netlocSplit
  cases l with
  | nil => injection h with h; exact h.symm
  | cons a tl =>
    cases tl with
    | nil => injection h with h; exact h.symm
    | cons b rest =>
      dsimp only at h ⊢
      by_cases hab : a = '/' ∧ b = '/'
      · rw [if_pos hab] at h
        rw [if_pos hab]
        by_cases hbr : ('[' ∈ rest.takeWhile netlocChar ∧
            ']' ∉ rest.takeWhile netlocChar) ∨
            (']' ∈ rest.takeWhile netlocChar ∧ '[' ∉ rest.takeWhile netlocChar)
        · rw [if_pos hbr] at h
          exact absurd h (by simp)
        · rw [if_neg hbr] at h
          by_cases hbo : '[' ∈ rest.takeWhile netlocChar ∧
              ']' ∈ rest.takeWhile netlocChar
          · rw [if_pos hbo] at h
            cases hhc : hostCheck (rest.takeWhile netlocChar) with
            | error e => rw [hhc] at h; exact absurd h (by simp)
            | ok u => rw [hhc] at h; injection h with h; exact h.symm
          · rw [if_neg hbo] at h
            injection h with h
            exact h.symm
      · rw [if_neg hab] at h
        rw [if_neg hab]
        injection h with h
        exact h.symm

theorem urlsplitE_no_brackets (hostCheck : List Char → Except String Unit)
    (l : List Char) (h1 : '[' ∉ l) (h2 : ']' ∉ l) :
    urlsplitE hostCheck l = .ok (urlparseL l) := by
  unfold urlsplitE
  rw [netlocSplitE_no_brackets hostCheck _
    (fun hm => h1 (mem_schemeSplit_snd l '[' hm))
    (fun hm => h2 (mem_schemeSplit_snd l ']' hm))]
  rfl

theorem urlsplitE_ok_eq (hostCheck : List Char → Except String Unit)
    (l : List Char) (p : ParsedUrl) (h : urlsplitE hostCheck l = .ok p) :
    p = urlparseL l := by
  unfold urlsplitE at h
  cases hn : netlocSplitE hostCheck (schemeSplit l).2 with
  | error e => rw [hn] at h; exact absurd h (by simp)
  | ok nl =>
    rw [hn] at h
    injection h with h
    subst h
    rw [netlocSplitE_ok_eq hostCheck _ nl hn]
    rfl

theorem extractFileIdE_no_brackets (hostCheck : List Char → Except String Unit)
    (url : List Char) (h1 : '[' ∉ url) (h2 : ']' ∉ url) :
    extractFileIdE hostCheck url = .ok (extractFileId url) := by
  unfold extractFileIdE extractFileId
  by_cases he : url = []
  · rw [if_pos he, if_pos he]
  · rw [if_neg he, if_neg he,
      urlsplitE_no_brackets hostCheck _
        (fun hm => h1 (mem_pyStripList url '[' hm))
        (fun hm => h2 (mem_pyStripList url ']' hm))]

theorem extractFileIdE_ok_eq (hostCheck : List Char → Except String Unit)
    (url : List Char) (r : Option (List Char))
    (h : extractFileIdE hostCheck url = .ok r) : r = extractFileId url := by
  unfold extractFileIdE at h
  unfold extractFileId
  by_cases he : url = []
  · rw [if_pos he] at h
    rw [if_pos he]
    injection h with h
    exact h.symm
  · rw [if_neg he] at h
    rw [if_neg he]
    cases hu : urlsplitE hostCheck (pyStripList url) with
    | error e => rw [hu] at h; exact absurd h (by simp)
    | ok parsed =>
      rw [hu] at h
      injection h with h
      subst h
      rw [urlsplitE_ok_eq hostCheck _ parsed hu]

/-- Claim C4 counterexample: the claim says the resolver never raises on
malformed input, but `extract_google_drive_file_id` calls `urlparse` with no
try/except, and `urlsplit` raises `ValueError("Invalid IPv6 URL")` on a netloc
with an unbalanced square bracket in every CPython version — before any
bracketed-host validation, so even with a host check that never rejects, the
input "http://[" raises instead of returning the absent value (contrast the
bracket-free malformed input "not a url", which does return None). -/
theorem extract_google_drive_file_id_raises_counterexample :
    extract_google_drive_file_idE (fun _ => Except.ok ()) "http://[" =
      .error "Invalid IPv6 URL" ∧
    extract_google_drive_file_idE (fun _ => Except.ok ()) "not a url" = .ok none := by
  constructor
  · rfl
  · rfl

/-- Claim C4 (amended): for every id made of plain Drive-id characters, the
Source Resolver extracts exactly that id from the three supported shapes
(`/file/d/<id>/view`, `?id=<id>`, `?export=download&id=<id>`) on the
drive.google.com host, for every behaviour of the version-dependent
bracketed-host validation; whenever it returns an id at all, the input had a
recognized shape (a netloc containing "drive.google." and either a
`/file/d/<id>` path or an `id` query key holding that id); and on every string
containing no square bracket it returns without raising, agreeing with the
non-raising model — so every bracket-free unrecognized string yields the
absent value.  A string whose netloc piece carries an unbalanced bracket makes
the unguarded `urlparse` call raise `ValueError`, and a balanced bracketed
host may be rejected by stdlib validation, so the original never-raises
conjunct fails (see the counterexample). -/
theorem extract_google_drive_file_idE_spec (ids : String)
    (hne : ids.data ≠ []) (hall : ids.data.all plainIdChar = true) :
    (∀ hostCheck, extract_google_drive_file_idE hostCheck
        ("https://drive.google.com/file/d/" ++ ids ++ "/view") = .ok (some ids)) ∧
    (∀ hostCheck, extract_google_drive_file_idE hostCheck
        ("https://drive.google.com/open?id=" ++ ids) = .ok (some ids)) ∧
    (∀ hostCheck, extract_google_drive_file_idE hostCheck
        ("https://drive.google.com/uc?export=download&id=" ++ ids) =
      .ok (some ids)) ∧
    (∀ (hostCheck : List Char → Except String Unit) (url x : String),
      extract_google_drive_file_idE hostCheck url = .ok (some x) →
      containsSeq "drive.google.".data
        (urlparseL (pyStripList url.data)).netloc = true ∧
      ((∃ rest, pathPartsOf (urlparseL (pyStripList url.data)).path =
          "file".data :: "d".data :: x.data :: rest) ∨
        qsFirst "id".data (parse_qsl (urlparseL (pyStripList url.data)).query) =
          some x.data)) ∧
    (∀ (hostCheck : List Char → Except String Unit) (url : String),
      '[' ∉ url.data → ']' ∉ url.data →
      extract_google_drive_file_idE hostCheck url =
        .ok (extract_google_drive_file_id url)) := by
  have hbl : '[' ∉ ids.data := not_mem_of_all_plain ids.data hall '[' (by decide)
  have hbr : ']' ∉ ids.data := not_mem_of_all_plain ids.data hall ']' (by decide)
  refine ⟨?_, ?_, ?_, ?_, ?_⟩
  · intro hostCheck
    rw [extract_google_drive_file_idE, String.data_append, String.data_append,
      extractFileIdE_no_brackets hostCheck _
        (charNotMemAppend _ _ _ (charNotMemAppend _ _ _ (by decide) hbl) (by decide))
        (charNotMemAppend _ _ _ (charNotMemAppend _ _ _ (by decide) hbr) (by decide)),
      extractFileId_file_d ids.data hne hall]
    rfl
  · intro hostCheck
    rw [extract_google_drive_file_idE, String.data_append,
      extractFileIdE_no_brackets hostCheck _
        (charNotMemAppend _ _ _ (by decide) hbl)
        (charNotMemAppend _ _ _ (by decide) hbr),
      extractFileId_open_id ids.data hne hall]
    rfl
  · intro hostCheck
    rw [extract_google_drive_file_idE, String.data_append,
      extractFileIdE_no_brackets hostCheck _
        (charNotMemAppend _ _ _ (by decide) hbl)
        (charNotMemAppend _ _ _ (by decide) hbr),
      extractFileId_export_download ids.data hne hall]
    rfl
  · intro hostCheck url x h
    rw [extract_google_drive_file_idE] at h
    cases hx : extractFileIdE hostCheck url.data with
    | error e => rw [hx] at h; exact absurd h (by simp [Except.map])
    | ok r =>
      rw [hx] at h
      simp only [Except.map] at h
      injection h with h
      cases r with
      | none => simp at h
      | some l =>
        simp only [Option.map] at h
        injection h with h
        have hl : extractFileId url.data = some l :=
          (extractFileIdE_ok_eq hostCheck url.data (some l) hx).symm
        subst h
        exact extractFileId_some_shape url.data l hl
  · intro hostCheck url h1 h2
    rw [extract_google_drive_file_idE, extract_google_drive_file_id,
      extractFileIdE_no_brackets hostCheck url.data h1 h2]
    rfl

/-- Claim C4 witness: the amended guarantees evaluated at the concrete id
"A_1-b". -/
theorem extract_google_drive_file_idE_spec_witness :
    (∀ hostCheck, extract_google_drive_file_idE hostCheck
        ("https://drive.google.com/file/d/" ++ "A_1-b" ++ "/view") =
      .ok (some "A_1-b")) ∧
    (∀ hostCheck, extract_google_drive_file_idE hostCheck
        ("https://drive.google.com/open?id=" ++ "A_1-b") = .ok (some "A_1-b")) ∧
    (∀ hostCheck, extract_google_drive_file_idE hostCheck
        ("https://drive.google.com/uc?export=download&id=" ++ "A_1-b") =
      .ok (some "A_1-b")) ∧
    (∀ (hostCheck : List Char → Except String Unit) (url x : String),
      extract_google_drive_file_idE hostCheck url = .ok (some x) →
      containsSeq "drive.google.".data
        (urlparseL (pyStripList url.data)).netloc = true ∧
      ((∃ rest, pathPartsOf (urlparseL (pyStripList url.data)).path =
          "file".data :: "d".data :: x.data :: rest) ∨
        qsFirst "id".data (parse_qsl (urlparseL (pyStripList url.data)).query) =
          some x.data)) ∧
    (∀ (hostCheck : List Char → Except String Unit) (url : String),
      '[' ∉ url.data → ']' ∉ url.data →
      extract_google_drive_file_idE hostCheck url =
        .ok (extract_google_drive_file_id url)) :=
  extract_google_drive_file_idE_spec "A_1-b" (by decide) (by decide)
